import Mathlib

set_option linter.unusedVariables false

/-!
Shallow embedding of the Wii encrypted-partition volume reader
(Source/Core/DiscIO/VolumeWii.cpp) together with the ticket/TMD view
contracts it relies on (Source/Core/Core/IOS/ES/Formats.h).

Bytes are modelled as natural numbers, byte buffers as lists, and the
64-bit unsigned arithmetic of the source is modelled as natural-number
arithmetic reduced modulo 2^64 wherever the source computes in u64.
The mbedtls AES-CBC and SHA-1 primitives are external libraries from the
volume reader's point of view, so they enter the model as an abstract
`Crypto` parameter; an AES decryption key schedule is identified with the
16-byte key it was derived from (mbedtls_aes_setkey_dec is injective on
keys for the purposes of this model).
-/

/-- Modulus of 64-bit unsigned arithmetic. -/
def U64MOD : Nat := 2 ^ 64

/-- Sentinel value of `m_last_decrypted_block` (UINT64_MAX). -/
def U64MAX : Nat := 2 ^ 64 - 1

/-- Modelled from the spec: `BLOCK_HEADER_SIZE` (declared in VolumeWii.h,
which is not part of the sources; value fixed by the spec's data model). -/
def BLOCK_HEADER_SIZE : Nat := 0x400

/-- Modelled from the spec: `BLOCK_DATA_SIZE` (declared in VolumeWii.h). -/
def BLOCK_DATA_SIZE : Nat := 0x7C00

/-- Modelled from the spec: `BLOCK_TOTAL_SIZE` (declared in VolumeWii.h). -/
def BLOCK_TOTAL_SIZE : Nat := 0x8000

/-- `PARTITION_DATA_OFFSET` from VolumeWii.cpp line 32. -/
def PARTITION_DATA_OFFSET : Nat := 0x20000

/-- Modelled from the spec: a partition descriptor (DiscIO/Volume.h is not
part of the sources). It carries the partition's absolute byte offset on
the image; equality is by offset. -/
structure Partition where
  offset : Nat
deriving DecidableEq

/-- Modelled from the spec: the distinguished "no partition" descriptor.
Its offset is the u64 sentinel, so that no constructor-discovered
partition (whose offset is a u32 shifted left by 2, hence even and below
2^34) can collide with it. -/
def PARTITION_NONE : Partition := ⟨U64MAX⟩

/-- The blob reader underneath the volume: `read offset length` returns
the requested bytes, or `none` on any I/O shortfall. -/
structure BlobReader where
  read : Nat → Nat → Option (List Nat)

/-- Big-endian interpretation of a byte list (most significant first). -/
def beBytes (bs : List Nat) : Nat := bs.foldl (fun a b => a * 256 + b % 256) 0

/-- Modelled from the spec: `BlobReader::ReadSwapped<u32>`, the big-endian
u32 scalar read derived from the 4-byte read (Blob.h is not part of the
sources). -/
def BlobReader.ReadSwapped32 (r : BlobReader) (off : Nat) : Option Nat :=
  (r.read off 4).map beBytes

/-- The external crypto primitives (mbedtls): AES-128-CBC decryption
taking a key schedule, an IV and a ciphertext, and SHA-1. -/
structure Crypto where
  aesCbcDecrypt : List Nat → List Nat → List Nat → List Nat
  sha1 : List Nat → List Nat

/-- Ticket view over a raw byte buffer (IOS::ES::TicketReader). -/
structure TicketReader where
  bytes : List Nat
deriving DecidableEq

/-- Modelled from the spec: `TicketReader::IsValid` (implemented outside
the sources). Valid iff the buffer is exactly `sizeof(IOS::ES::Ticket)`
= 0x2A4 bytes. -/
def TicketReader.IsValid (t : TicketReader) : Bool := t.bytes.length == 0x2A4

/-- Modelled from the spec: `TicketReader::GetTitleKey` (implemented
outside the sources). Returns the 16-byte `title_key` field, which the
`Ticket` layout in Formats.h places at byte offset 0x1BF
(RSA-2048 signature block 0x180 + server_public_key 0x3C + 3 version
bytes). -/
def TicketReader.GetTitleKey (t : TicketReader) : List Nat :=
  (t.bytes.drop 0x1BF).take 16

/-- Modelled from the spec: `TicketReader::GetTitleId` (implemented
outside the sources). The `title_id` field sits at byte offset 0x1DC of
the `Ticket` layout in Formats.h, stored big-endian. -/
def TicketReader.GetTitleId (t : TicketReader) : Nat :=
  beBytes ((t.bytes.drop 0x1DC).take 8)

/-- TMD view over a raw byte buffer (IOS::ES::TMDReader). -/
structure TMDReader where
  bytes : List Nat
deriving DecidableEq

/-- Modelled from the spec: `IOS::ES::IsValidTMDSize` (implemented outside
the sources). A TMD size is valid iff it is at least the header size
0x1E4 and at most a conservative 4 MiB ceiling. -/
def IsValidTMDSize (size : Nat) : Bool :=
  decide (0x1E4 ≤ size ∧ size ≤ 0x400000)

/-- Modelled from the spec: `TMDReader::IsValid` (implemented outside the
sources); in particular it is false for the empty sentinel buffer. -/
def TMDReader.IsValid (t : TMDReader) : Bool := IsValidTMDSize t.bytes.length

/-- The sentinel invalid ticket returned for unknown partitions. -/
def INVALID_TICKET : TicketReader := ⟨[]⟩

/-- The sentinel invalid TMD returned for unknown partitions. -/
def INVALID_TMD : TMDReader := ⟨[]⟩

/-- The one-slot decrypted-cluster cache: `m_last_decrypted_block`
(sentinel `U64MAX`) and `m_last_decrypted_block_data`. -/
structure DecCache where
  last : Nat
  data : List Nat
deriving DecidableEq

/-- The volume state after construction: the three partition-keyed maps
(`m_partition_keys`, `m_partition_tickets`, `m_partition_tmds`, modelled
as association lists with unique keys) and `m_game_partition`. The
mutable cache is threaded separately through `Read`/`CheckIntegrity`. -/
structure VolumeWii where
  partitionKeys : List (Partition × List Nat)
  partitionTickets : List (Partition × TicketReader)
  partitionTmds : List (Partition × TMDReader)
  gamePartition : Partition

/-- Map lookup (`std::map::find`). -/
def lookupKV {α : Type} : List (Partition × α) → Partition → Option α
  | [], _ => none
  | (k, v) :: rest, p => if k = p then some v else lookupKV rest p

/-- Map insert-or-assign (`std::map::operator[]` followed by assignment). -/
def insertKV {α : Type} : List (Partition × α) → Partition → α → List (Partition × α)
  | [], p, a => [(p, a)]
  | (k, v) :: rest, p, a =>
      if k = p then (p, a) :: rest else (k, v) :: insertKV rest p a

/-- The raw disc offset of the cluster containing partition-local offset
`readOffset`: `partition.offset + PARTITION_DATA_OFFSET
+ _ReadOffset / BLOCK_DATA_SIZE * BLOCK_TOTAL_SIZE` in u64 arithmetic
(VolumeWii.cpp lines 137-138). -/
def blockOffsetOnDisc (part : Partition) (readOffset : Nat) : Nat :=
  (part.offset + PARTITION_DATA_OFFSET +
    readOffset / BLOCK_DATA_SIZE * BLOCK_TOTAL_SIZE) % U64MOD

/-- The cache-refill step of `VolumeWii::Read` (lines 141-153): if the
cache already holds the cluster at the current block offset, keep it;
otherwise fetch `BLOCK_TOTAL_SIZE` bytes at the block offset (failing if
the blob read fails), take bytes 0x3D0..0x3E0 as the CBC IV and decrypt
the `BLOCK_DATA_SIZE` ciphertext bytes starting at `BLOCK_HEADER_SIZE`. -/
def fetchCluster (c : Crypto) (reader : BlobReader) (aes : List Nat) (part : Partition)
    (readOffset : Nat) (cache : DecCache) : Option DecCache :=
  let blockOff := blockOffsetOnDisc part readOffset
  if cache.last = blockOff then some cache
  else
    match reader.read blockOff BLOCK_TOTAL_SIZE with
    | none => none
    | some buf =>
        some ⟨blockOff, c.aesCbcDecrypt aes ((buf.drop 0x3D0).take 16)
          ((buf.drop BLOCK_HEADER_SIZE).take BLOCK_DATA_SIZE)⟩

/-- The while loop of `VolumeWii::Read` (lines 134-170), with an explicit
structural fuel parameter: every iteration copies at least one byte of
`length`, so `length` bounds the iteration count and `readLoop` below
enters the loop with `fuel = length` (the fuel-0 row is unreachable
there). Returns the success flag, the final cache, and the bytes copied
to the output buffer (on failure, the bytes copied before the failing
cluster fetch). -/
def readLoopF (c : Crypto) (reader : BlobReader) (aes : List Nat) (part : Partition) :
    Nat → Nat → Nat → DecCache → Bool × DecCache × List Nat
  | 0, _, _, cache => (true, cache, [])
  | fuel + 1, readOffset, length, cache =>
    if length = 0 then (true, cache, [])
    else
      match fetchCluster c reader aes part readOffset cache with
      | none => (false, cache, [])
      | some cache1 =>
          let dataOff := readOffset % BLOCK_DATA_SIZE
          let copySize := min length (BLOCK_DATA_SIZE - dataOff)
          let rest := readLoopF c reader aes part fuel ((readOffset + copySize) % U64MOD)
            (length - copySize) cache1
          (rest.1, rest.2.1, ((cache1.data.drop dataOff).take copySize) ++ rest.2.2)

/-- The while loop of `VolumeWii::Read`, entered with fuel `length`. -/
def readLoop (c : Crypto) (reader : BlobReader) (aes : List Nat) (part : Partition)
    (readOffset length : Nat) (cache : DecCache) : Bool × DecCache × List Nat :=
  readLoopF c reader aes part length readOffset length cache

/-- `VolumeWii::Read` (lines 122-173): passthrough for `PARTITION_NONE`,
failure for unknown partitions, otherwise the decrypting loop. -/
def VolumeWii.Read (c : Crypto) (v : VolumeWii) (reader : BlobReader)
    (readOffset length : Nat) (part : Partition) (cache : DecCache) :
    Bool × DecCache × List Nat :=
  if part = PARTITION_NONE then
    match reader.read readOffset length with
    | some bs => (true, cache, bs)
    | none => (false, cache, [])
  else
    match lookupKV v.partitionKeys part with
    | none => (false, cache, [])
    | some aes => readLoop c reader aes part readOffset length cache

/-- `VolumeWii::PartitionOffsetToRawOffset` (lines 208-215), in u64
arithmetic. -/
def VolumeWii.PartitionOffsetToRawOffset (offset : Nat) (part : Partition) : Nat :=
  if part = PARTITION_NONE then offset
  else
    (part.offset + PARTITION_DATA_OFFSET + offset / BLOCK_DATA_SIZE * BLOCK_TOTAL_SIZE
      + offset % BLOCK_DATA_SIZE) % U64MOD

/-- `VolumeWii::GetTicket` (lines 196-200). -/
def VolumeWii.GetTicket (v : VolumeWii) (part : Partition) : TicketReader :=
  match lookupKV v.partitionTickets part with
  | some t => t
  | none => INVALID_TICKET

/-- `VolumeWii::GetTMD` (lines 202-206). -/
def VolumeWii.GetTMD (v : VolumeWii) (part : Partition) : TMDReader :=
  match lookupKV v.partitionTmds part with
  | some t => t
  | none => INVALID_TMD

/-- `VolumeWii::GetTitleID` (lines 188-194). -/
def VolumeWii.GetTitleID (v : VolumeWii) (part : Partition) : Option Nat :=
  let ticket := v.GetTicket part
  if ticket.IsValid then some ticket.GetTitleId else none

/-- The "meaningless cluster" test of `VolumeWii::CheckIntegrity`
(lines 366-372): some byte of the decrypted cluster metadata at indices
0x26C..0x280 is non-zero. The claim wording describes the same test. -/
def clusterIsHole (md : List Nat) : Bool :=
  ((md.drop 0x26C).take (0x280 - 0x26C)).any (· != 0)

/-- The 31 hash comparisons of `VolumeWii::CheckIntegrity` (lines
381-394): SHA-1 of each 1024-byte sub-block of the payload equals the
corresponding 20-byte slot of the decrypted metadata. The source warns
and returns false at the first mismatch, which yields the same result
and cache as evaluating all 31 comparisons. -/
def clusterHashesOk (c : Crypto) (md payload : List Nat) : Bool :=
  (List.range 31).all fun hashID =>
    c.sha1 ((payload.drop (hashID * 0x400)).take 0x400) == (md.drop (hashID * 20)).take 20

/-- The cluster loop of `VolumeWii::CheckIntegrity` (lines 343-395),
iterating over the remaining cluster ids. For each cluster: read the
0x400-byte encrypted metadata (failure aborts with `false`), decrypt it
with an all-zero IV, skip the cluster if any byte of the decrypted
metadata in 0x26C..0x280 is non-zero, otherwise read the cluster's
0x7C00-byte decrypted payload through `VolumeWii::Read` and compare the
SHA-1 of each of the 31 1024-byte sub-blocks against the corresponding
20-byte metadata slot (the source warns and returns false at the first
mismatch, which yields the same result and cache as checking all 31). -/
def integrityClusters (c : Crypto) (v : VolumeWii) (reader : BlobReader) (aes : List Nat)
    (part : Partition) : List Nat → DecCache → Bool × DecCache
  | [], cache => (true, cache)
  | clusterID :: rest, cache =>
      let clusterOff :=
        (part.offset + PARTITION_DATA_OFFSET + clusterID * BLOCK_TOTAL_SIZE) % U64MOD
      match reader.read clusterOff 0x400 with
      | none => (false, cache)
      | some mdCrypted =>
          let clusterMD := c.aesCbcDecrypt aes (List.replicate 16 0) mdCrypted
          if clusterIsHole clusterMD then integrityClusters c v reader aes part rest cache
          else
            match VolumeWii.Read c v reader (clusterID * 0x7C00) 0x7C00 part cache with
            | (false, cache1, _) => (false, cache1)
            | (true, cache1, clusterData) =>
                if clusterHashesOk c clusterMD clusterData then
                  integrityClusters c v reader aes part rest cache1
                else (false, cache1)

/-- `VolumeWii::CheckIntegrity` (lines 329-398). The source ignores the
return value of the 4-byte read of the partition-size field at
`partition.offset + 0x2BC`; on failure the u32 holds whatever was on the
stack, modelled by the explicit `uninitSize` parameter. -/
def VolumeWii.CheckIntegrity (c : Crypto) (v : VolumeWii) (reader : BlobReader)
    (part : Partition) (cache : DecCache) (uninitSize : Nat) : Bool × DecCache :=
  match lookupKV v.partitionKeys part with
  | none => (false, cache)
  | some aes =>
      let partSizeDiv4 :=
        match reader.read ((part.offset + 0x2BC) % U64MOD) 4 with
        | some bs => beBytes bs
        | none => uninitSize % 2 ^ 32
      let partDataSize := partSizeDiv4 * 4
      let nClusters := partDataSize / 0x8000 % 2 ^ 32
      integrityClusters c v reader aes part (List.range nClusters) cache

/-- One iteration of the partition-discovery loop body (VolumeWii.cpp
lines 60-104): read the partition pointer, the 0x2A4-byte ticket, the TMD
size and address, validate the TMD size, read the TMD, and extract the
16-byte title key. Every blob read and every validation is a pure
function of the reader, so the side conditions of the source's
`continue`-laden loop body collapse into one `Option`: `none` means the
entry is skipped, `some` carries what lines 106-113 store. -/
def entryResult (reader : BlobReader) (tableOff i : Nat) :
    Option (Partition × List Nat × TicketReader × TMDReader) :=
  match reader.ReadSwapped32 (tableOff + i * 8) with
  | none => none
  | some partPtr =>
      let partitionOffset := partPtr * 4
      match reader.read partitionOffset 0x2A4 with
      | none => none
      | some ticketBytes =>
          let ticket : TicketReader := ⟨ticketBytes⟩
          if ¬ ticket.IsValid then none
          else
            match reader.ReadSwapped32 (partitionOffset + 0x2A4),
                reader.ReadSwapped32 (partitionOffset + 0x2A8) with
            | some tmdSize, some tmdAddr0 =>
                let tmdAddr := tmdAddr0 * 4
                if ¬ IsValidTMDSize tmdSize then none
                else
                  match reader.read (partitionOffset + tmdAddr) tmdSize with
                  | none => none
                  | some tmdBytes =>
                      let key := ticket.GetTitleKey
                      if key.length ≠ 16 then none
                      else some (⟨partitionOffset⟩, key, ticket, ⟨tmdBytes⟩)
            | _, _ => none

/-- The game-partition test of lines 69-71: the type field of table entry
`i` reads back as 0. -/
def entryIsTypeZero (reader : BlobReader) (tableOff i : Nat) : Bool :=
  reader.ReadSwapped32 (tableOff + i * 8 + 4) == some 0

/-- The state update of one discovery-loop iteration: skip on any
failure, otherwise store key, ticket and TMD (lines 106-113) and record
the game partition if none is recorded yet and the entry's type is 0. -/
def processEntry (reader : BlobReader) (tableOff : Nat) (st : VolumeWii) (i : Nat) :
    VolumeWii :=
  match entryResult reader tableOff i with
  | none => st
  | some (part, key, ticket, tmd) =>
      { partitionKeys := insertKV st.partitionKeys part key
        partitionTickets := insertKV st.partitionTickets part ticket
        partitionTmds := insertKV st.partitionTmds part tmd
        gamePartition :=
          if st.gamePartition = PARTITION_NONE ∧ entryIsTypeZero reader tableOff i then part
          else st.gamePartition }

/-- One partition group (lines 47-60): read the partition count and the
table pointer for the group; a failed read skips the whole group. -/
def processGroup (reader : BlobReader) (st : VolumeWii) (group : Nat) : VolumeWii :=
  match reader.ReadSwapped32 (0x40000 + group * 8) with
  | none => st
  | some numberOfPartitions =>
      match reader.ReadSwapped32 (0x40000 + group * 8 + 4) with
      | none => st
      | some tablePtr =>
          (List.range numberOfPartitions).foldl (processEntry reader (tablePtr * 4)) st

/-- The volume state before any partition is discovered. -/
def emptyVolume : VolumeWii := ⟨[], [], [], PARTITION_NONE⟩

/-- The `VolumeWii` constructor (lines 34-116): if the big-endian u32 at
offset 0x60 does not read back as 0 (including read failure), no
partitions are recorded; otherwise the four partition groups are
scanned. -/
def VolumeWii.construct (reader : BlobReader) : VolumeWii :=
  if reader.ReadSwapped32 0x60 ≠ some 0 then emptyVolume
  else (List.range 4).foldl (processGroup reader) emptyVolume

/-- The decrypted cluster obtained from raw disc offset `raw`: fetch
`BLOCK_TOTAL_SIZE` bytes there, take bytes 0x3D0..0x3E0 as the CBC IV and
decrypt the `BLOCK_DATA_SIZE` ciphertext bytes starting at
`BLOCK_HEADER_SIZE` with key schedule `aes`. -/
def decRaw (c : Crypto) (reader : BlobReader) (aes : List Nat) (raw : Nat) :
    Option (List Nat) :=
  (reader.read raw BLOCK_TOTAL_SIZE).map fun buf =>
    c.aesCbcDecrypt aes ((buf.drop 0x3D0).take 16)
      ((buf.drop BLOCK_HEADER_SIZE).take BLOCK_DATA_SIZE)

/-- Modelled from the spec (the cluster-by-cluster description of the
read path): serve a `(readOffset, length)` request purely, with no
cache. For each cluster touched, read the 0x8000-byte cluster at
`partition.offset + 0x20000 + readOffset / 0x7C00 * 0x8000` (u64
arithmetic), decrypt its data region using the IV at 0x3D0..0x3E0, and
copy from intra-cluster offset `readOffset mod 0x7C00`; fail iff some
cluster fetch from the blob reader fails. -/
def readPureF (c : Crypto) (reader : BlobReader) (aes : List Nat) (part : Partition) :
    Nat → Nat → Nat → Option (List Nat)
  | 0, _, _ => some []
  | fuel + 1, readOffset, length =>
    if length = 0 then some []
    else
      match decRaw c reader aes (blockOffsetOnDisc part readOffset) with
      | none => none
      | some d =>
          let dataOff := readOffset % BLOCK_DATA_SIZE
          let copySize := min length (BLOCK_DATA_SIZE - dataOff)
          match readPureF c reader aes part fuel ((readOffset + copySize) % U64MOD)
              (length - copySize) with
          | none => none
          | some rest => some (((d.drop dataOff).take copySize) ++ rest)

/-- The pure per-cluster read, entered with fuel `length` (each step
consumes at least one byte, so the fuel-0 row is unreachable). -/
def readPure (c : Crypto) (reader : BlobReader) (aes : List Nat) (part : Partition)
    (readOffset length : Nat) : Option (List Nat) :=
  readPureF c reader aes part length readOffset length

/-- The cache is sound for partition `part` under key schedule `aes`:
whenever its tag is a raw cluster offset of `part`'s geometry, the cached
plaintext is the decryption of the cluster at that raw offset. The
freshly constructed cache (tag `U64MAX`) is sound whenever `U64MAX` is
not of `part`'s cluster geometry. -/
def PCoherent (c : Crypto) (reader : BlobReader) (aes : List Nat) (part : Partition)
    (cache : DecCache) : Prop :=
  ∀ j : Nat,
    cache.last = (part.offset + PARTITION_DATA_OFFSET + j * BLOCK_TOTAL_SIZE) % U64MOD →
    decRaw c reader aes cache.last = some cache.data

/-- The volume-wide cache invariant: when the cache tag is not the
`U64MAX` sentinel, it is the raw offset of a cluster in the geometry of
some partition of the map, and the cached plaintext is the decryption of
the cluster at that raw offset under that partition's key schedule. -/
def VCoherent (c : Crypto) (reader : BlobReader) (v : VolumeWii) (cache : DecCache) :
    Prop :=
  cache.last ≠ U64MAX →
    ∃ part aes j, lookupKV v.partitionKeys part = some aes ∧
      cache.last = (part.offset + PARTITION_DATA_OFFSET + j * BLOCK_TOTAL_SIZE) % U64MOD ∧
      decRaw c reader aes cache.last = some cache.data

/-- Cache states reachable from the freshly constructed volume (cache tag
`U64MAX`, arbitrary uninitialised buffer) by any sequence of `Read` and
`CheckIntegrity` calls. -/
inductive CacheReachable (c : Crypto) (reader : BlobReader) (v : VolumeWii) :
    DecCache → Prop where
  | init (d : List Nat) : CacheReachable c reader v ⟨U64MAX, d⟩
  | readStep (s : DecCache) (o n : Nat) (p : Partition) :
      CacheReachable c reader v s →
      CacheReachable c reader v (VolumeWii.Read c v reader o n p s).2.1
  | checkStep (s : DecCache) (p : Partition) (g : Nat) :
      CacheReachable c reader v s →
      CacheReachable c reader v (VolumeWii.CheckIntegrity c v reader p s g).2

/-- Modelled from the spec (claim wording): the decrypted 0x400-byte
metadata region of cluster `i` of `part`, decrypted with an all-zero IV;
`none` if the metadata read fails. -/
def clusterMetaPlain (c : Crypto) (reader : BlobReader) (aes : List Nat)
    (part : Partition) (i : Nat) : Option (List Nat) :=
  (reader.read ((part.offset + PARTITION_DATA_OFFSET + i * BLOCK_TOTAL_SIZE) % U64MOD)
      0x400).map
    (c.aesCbcDecrypt aes (List.replicate 16 0))

/-- Modelled from the spec (claim wording): cluster `i` passes the
integrity walk iff its metadata is readable and it is either a hole or
its decrypted payload (served by the pure encrypted read path) is
readable with all 31 hash slots matching. -/
def clusterSpecOK (c : Crypto) (reader : BlobReader) (aes : List Nat) (part : Partition)
    (i : Nat) : Bool :=
  match clusterMetaPlain c reader aes part i with
  | none => false
  | some md =>
      clusterIsHole md ||
        match readPure c reader aes part (i * 0x7C00) 0x7C00 with
        | none => false
        | some payload => clusterHashesOk c md payload

/-- Modelled from the spec (claim wording): the integrity check of a
partition succeeds iff every cluster `0 ≤ i < nClusters` passes. -/
def checkIntegritySpec (c : Crypto) (reader : BlobReader) (aes : List Nat)
    (part : Partition) (nClusters : Nat) : Bool :=
  (List.range nClusters).all (clusterSpecOK c reader aes part)

theorem readLoopF_len_zero (c : Crypto) (reader : BlobReader) (aes : List Nat)
    (part : Partition) (fuel o : Nat) (cache : DecCache) :
    readLoopF c reader aes part fuel o 0 cache = (true, cache, []) := by
  cases fuel with
  | zero => rfl
  | succ f => rfl

theorem readLoopF_succ_none (c : Crypto) (reader : BlobReader) (aes : List Nat)
    (part : Partition) (fuel o n : Nat) (cache : DecCache) (hn : n ≠ 0)
    (hf : fetchCluster c reader aes part o cache = none) :
    readLoopF c reader aes part (fuel + 1) o n cache = (false, cache, []) := by
  conv_lhs => rw [readLoopF]
  rw [if_neg hn, hf]

theorem readLoopF_succ_some (c : Crypto) (reader : BlobReader) (aes : List Nat)
    (part : Partition) (fuel o n : Nat) (cache cache1 : DecCache) (hn : n ≠ 0)
    (hf : fetchCluster c reader aes part o cache = some cache1) :
    readLoopF c reader aes part (fuel + 1) o n cache =
      ((readLoopF c reader aes part fuel
          ((o + min n (BLOCK_DATA_SIZE - o % BLOCK_DATA_SIZE)) % U64MOD)
          (n - min n (BLOCK_DATA_SIZE - o % BLOCK_DATA_SIZE)) cache1).1,
        (readLoopF c reader aes part fuel
          ((o + min n (BLOCK_DATA_SIZE - o % BLOCK_DATA_SIZE)) % U64MOD)
          (n - min n (BLOCK_DATA_SIZE - o % BLOCK_DATA_SIZE)) cache1).2.1,
        ((cache1.data.drop (o % BLOCK_DATA_SIZE)).take
            (min n (BLOCK_DATA_SIZE - o % BLOCK_DATA_SIZE))) ++
          (readLoopF c reader aes part fuel
            ((o + min n (BLOCK_DATA_SIZE - o % BLOCK_DATA_SIZE)) % U64MOD)
            (n - min n (BLOCK_DATA_SIZE - o % BLOCK_DATA_SIZE)) cache1).2.2) := by
  conv_lhs => rw [readLoopF]
  rw [if_neg hn, hf]

theorem readLoopF_fuel (c : Crypto) (reader : BlobReader) (aes : List Nat)
    (part : Partition) :
    ∀ fuel1 fuel2 n o cache, n ≤ fuel1 → n ≤ fuel2 →
      readLoopF c reader aes part fuel1 o n cache
        = readLoopF c reader aes part fuel2 o n cache := by
  intro fuel1
  induction fuel1 with
  | zero =>
      intro fuel2 n o cache h1 h2
      have hn0 : n = 0 := Nat.le_zero.mp h1
      subst hn0
      rw [readLoopF_len_zero, readLoopF_len_zero]
  | succ f1 ih =>
      intro fuel2 n o cache h1 h2
      by_cases hn0 : n = 0
      · subst hn0
        rw [readLoopF_len_zero, readLoopF_len_zero]
      · cases fuel2 with
        | zero => exact absurd (Nat.le_zero.mp h2) hn0
        | succ f2 =>
            cases hf : fetchCluster c reader aes part o cache with
            | none =>
                rw [readLoopF_succ_none c reader aes part f1 o n cache hn0 hf,
                  readLoopF_succ_none c reader aes part f2 o n cache hn0 hf]
            | some cache1 =>
                rw [readLoopF_succ_some c reader aes part f1 o n cache cache1 hn0 hf,
                  readLoopF_succ_some c reader aes part f2 o n cache cache1 hn0 hf]
                have hdlt : o % BLOCK_DATA_SIZE < BLOCK_DATA_SIZE :=
                  Nat.mod_lt _ (by norm_num [BLOCK_DATA_SIZE])
                rw [ih f2 (n - min n (BLOCK_DATA_SIZE - o % BLOCK_DATA_SIZE))
                  ((o + min n (BLOCK_DATA_SIZE - o % BLOCK_DATA_SIZE)) % U64MOD)
                  cache1 (by omega) (by omega)]

theorem readLoop_zero (c : Crypto) (reader : BlobReader) (aes : List Nat)
    (part : Partition) (o : Nat) (cache : DecCache) :
    readLoop c reader aes part o 0 cache = (true, cache, []) :=
  readLoopF_len_zero c reader aes part 0 o cache

theorem readPureF_len_zero (c : Crypto) (reader : BlobReader) (aes : List Nat)
    (part : Partition) (fuel o : Nat) :
    readPureF c reader aes part fuel o 0 = some [] := by
  cases fuel with
  | zero => rfl
  | succ f => rfl

theorem readPureF_succ_none (c : Crypto) (reader : BlobReader) (aes : List Nat)
    (part : Partition) (fuel o n : Nat) (hn : n ≠ 0)
    (hd : decRaw c reader aes (blockOffsetOnDisc part o) = none) :
    readPureF c reader aes part (fuel + 1) o n = none := by
  conv_lhs => rw [readPureF]
  rw [if_neg hn, hd]

theorem readPureF_succ_some (c : Crypto) (reader : BlobReader) (aes : List Nat)
    (part : Partition) (fuel o n : Nat) (d : List Nat) (hn : n ≠ 0)
    (hd : decRaw c reader aes (blockOffsetOnDisc part o) = some d) :
    readPureF c reader aes part (fuel + 1) o n =
      Option.map
        (fun rest => ((d.drop (o % BLOCK_DATA_SIZE)).take
            (min n (BLOCK_DATA_SIZE - o % BLOCK_DATA_SIZE))) ++ rest)
        (readPureF c reader aes part fuel
          ((o + min n (BLOCK_DATA_SIZE - o % BLOCK_DATA_SIZE)) % U64MOD)
          (n - min n (BLOCK_DATA_SIZE - o % BLOCK_DATA_SIZE))) := by
  conv_lhs => rw [readPureF]
  rw [if_neg hn, hd]
  simp only []
  cases readPureF c reader aes part fuel
      ((o + min n (BLOCK_DATA_SIZE - o % BLOCK_DATA_SIZE)) % U64MOD)
      (n - min n (BLOCK_DATA_SIZE - o % BLOCK_DATA_SIZE)) with
  | none => rfl
  | some rest => rfl

theorem readPureF_fuel (c : Crypto) (reader : BlobReader) (aes : List Nat)
    (part : Partition) :
    ∀ fuel1 fuel2 n o, n ≤ fuel1 → n ≤ fuel2 →
      readPureF c reader aes part fuel1 o n = readPureF c reader aes part fuel2 o n := by
  intro fuel1
  induction fuel1 with
  | zero =>
      intro fuel2 n o h1 h2
      have hn0 : n = 0 := Nat.le_zero.mp h1
      subst hn0
      rw [readPureF_len_zero, readPureF_len_zero]
  | succ f1 ih =>
      intro fuel2 n o h1 h2
      by_cases hn0 : n = 0
      · subst hn0
        rw [readPureF_len_zero, readPureF_len_zero]
      · cases fuel2 with
        | zero => exact absurd (Nat.le_zero.mp h2) hn0
        | succ f2 =>
            cases hd : decRaw c reader aes (blockOffsetOnDisc part o) with
            | none =>
                rw [readPureF_succ_none c reader aes part f1 o n hn0 hd,
                  readPureF_succ_none c reader aes part f2 o n hn0 hd]
            | some d =>
                rw [readPureF_succ_some c reader aes part f1 o n d hn0 hd,
                  readPureF_succ_some c reader aes part f2 o n d hn0 hd]
                have hdlt : o % BLOCK_DATA_SIZE < BLOCK_DATA_SIZE :=
                  Nat.mod_lt _ (by norm_num [BLOCK_DATA_SIZE])
                rw [ih f2 (n - min n (BLOCK_DATA_SIZE - o % BLOCK_DATA_SIZE))
                  ((o + min n (BLOCK_DATA_SIZE - o % BLOCK_DATA_SIZE)) % U64MOD)
                  (by omega) (by omega)]

theorem readPure_zero (c : Crypto) (reader : BlobReader) (aes : List Nat)
    (part : Partition) (o : Nat) :
    readPure c reader aes part o 0 = some [] :=
  readPureF_len_zero c reader aes part 0 o

theorem pcoherent_of_decRaw (c : Crypto) (reader : BlobReader) (aes : List Nat)
    (part : Partition) (cache : DecCache)
    (h : decRaw c reader aes cache.last = some cache.data) :
    PCoherent c reader aes part cache := fun _ _ => h

theorem fetchCluster_eq_none (c : Crypto) (reader : BlobReader) (aes : List Nat)
    (part : Partition) (o : Nat) (cache : DecCache)
    (hc : PCoherent c reader aes part cache)
    (h : fetchCluster c reader aes part o cache = none) :
    decRaw c reader aes (blockOffsetOnDisc part o) = none := by
  unfold fetchCluster at h
  by_cases hhit : cache.last = blockOffsetOnDisc part o
  · simp [hhit] at h
  · simp only [if_neg hhit] at h
    cases hr : reader.read (blockOffsetOnDisc part o) BLOCK_TOTAL_SIZE with
    | none => simp [decRaw, hr]
    | some buf => rw [hr] at h; exact Option.noConfusion h

theorem fetchCluster_eq_some (c : Crypto) (reader : BlobReader) (aes : List Nat)
    (part : Partition) (o : Nat) (cache cache1 : DecCache)
    (hc : PCoherent c reader aes part cache)
    (h : fetchCluster c reader aes part o cache = some cache1) :
    decRaw c reader aes (blockOffsetOnDisc part o) = some cache1.data ∧
    cache1.last = blockOffsetOnDisc part o ∧
    PCoherent c reader aes part cache1 := by
  unfold fetchCluster at h
  by_cases hhit : cache.last = blockOffsetOnDisc part o
  · simp only [if_pos hhit] at h
    cases h
    have hdec : decRaw c reader aes cache.last = some cache.data :=
      hc (o / BLOCK_DATA_SIZE) (by rw [hhit]; rfl)
    rw [hhit] at hdec
    exact ⟨hdec, hhit, fun _ _ => by rw [hhit]; exact hdec⟩
  · simp only [if_neg hhit] at h
    cases hr : reader.read (blockOffsetOnDisc part o) BLOCK_TOTAL_SIZE with
    | none => rw [hr] at h; exact Option.noConfusion h
    | some buf =>
        rw [hr] at h
        cases h
        refine ⟨by simp [decRaw, hr], rfl, ?_⟩
        exact fun _ _ => by simp [decRaw, hr]


theorem readLoop_fetch_none (c : Crypto) (reader : BlobReader) (aes : List Nat)
    (part : Partition) (o n : Nat) (cache : DecCache) (hn : n ≠ 0)
    (hf : fetchCluster c reader aes part o cache = none) :
    readLoop c reader aes part o n cache = (false, cache, []) := by
  obtain ⟨m, rfl⟩ : ∃ m, n = m + 1 := ⟨n - 1, by omega⟩
  exact readLoopF_succ_none c reader aes part m o (m + 1) cache hn hf

theorem readLoop_fetch_some (c : Crypto) (reader : BlobReader) (aes : List Nat)
    (part : Partition) (o n : Nat) (cache cache1 : DecCache) (hn : n ≠ 0)
    (hf : fetchCluster c reader aes part o cache = some cache1) :
    readLoop c reader aes part o n cache =
      ((readLoop c reader aes part
          ((o + min n (BLOCK_DATA_SIZE - o % BLOCK_DATA_SIZE)) % U64MOD)
          (n - min n (BLOCK_DATA_SIZE - o % BLOCK_DATA_SIZE)) cache1).1,
        (readLoop c reader aes part
          ((o + min n (BLOCK_DATA_SIZE - o % BLOCK_DATA_SIZE)) % U64MOD)
          (n - min n (BLOCK_DATA_SIZE - o % BLOCK_DATA_SIZE)) cache1).2.1,
        ((cache1.data.drop (o % BLOCK_DATA_SIZE)).take
            (min n (BLOCK_DATA_SIZE - o % BLOCK_DATA_SIZE))) ++
          (readLoop c reader aes part
            ((o + min n (BLOCK_DATA_SIZE - o % BLOCK_DATA_SIZE)) % U64MOD)
            (n - min n (BLOCK_DATA_SIZE - o % BLOCK_DATA_SIZE)) cache1).2.2) := by
  obtain ⟨m, rfl⟩ : ∃ m, n = m + 1 := ⟨n - 1, by omega⟩
  show readLoopF c reader aes part (m + 1) o (m + 1) cache = _
  rw [readLoopF_succ_some c reader aes part m o (m + 1) cache cache1 hn hf]
  have hdlt : o % BLOCK_DATA_SIZE < BLOCK_DATA_SIZE :=
    Nat.mod_lt _ (by norm_num [BLOCK_DATA_SIZE])
  rw [readLoopF_fuel c reader aes part m
    ((m + 1) - min (m + 1) (BLOCK_DATA_SIZE - o % BLOCK_DATA_SIZE))
    ((m + 1) - min (m + 1) (BLOCK_DATA_SIZE - o % BLOCK_DATA_SIZE))
    ((o + min (m + 1) (BLOCK_DATA_SIZE - o % BLOCK_DATA_SIZE)) % U64MOD)
    cache1 (by omega) (by omega)]
  rfl

theorem readPure_dec_none (c : Crypto) (reader : BlobReader) (aes : List Nat)
    (part : Partition) (o n : Nat) (hn : n ≠ 0)
    (hd : decRaw c reader aes (blockOffsetOnDisc part o) = none) :
    readPure c reader aes part o n = none := by
  obtain ⟨m, rfl⟩ : ∃ m, n = m + 1 := ⟨n - 1, by omega⟩
  exact readPureF_succ_none c reader aes part m o (m + 1) hn hd

theorem readPure_dec_some (c : Crypto) (reader : BlobReader) (aes : List Nat)
    (part : Partition) (o n : Nat) (d : List Nat) (hn : n ≠ 0)
    (hd : decRaw c reader aes (blockOffsetOnDisc part o) = some d) :
    readPure c reader aes part o n =
      Option.map
        (fun rest => ((d.drop (o % BLOCK_DATA_SIZE)).take
            (min n (BLOCK_DATA_SIZE - o % BLOCK_DATA_SIZE))) ++ rest)
        (readPure c reader aes part
          ((o + min n (BLOCK_DATA_SIZE - o % BLOCK_DATA_SIZE)) % U64MOD)
          (n - min n (BLOCK_DATA_SIZE - o % BLOCK_DATA_SIZE))) := by
  obtain ⟨m, rfl⟩ : ∃ m, n = m + 1 := ⟨n - 1, by omega⟩
  show readPureF c reader aes part (m + 1) o (m + 1) = _
  rw [readPureF_succ_some c reader aes part m o (m + 1) d hn hd]
  have hdlt : o % BLOCK_DATA_SIZE < BLOCK_DATA_SIZE :=
    Nat.mod_lt _ (by norm_num [BLOCK_DATA_SIZE])
  rw [readPureF_fuel c reader aes part m
    ((m + 1) - min (m + 1) (BLOCK_DATA_SIZE - o % BLOCK_DATA_SIZE))
    ((m + 1) - min (m + 1) (BLOCK_DATA_SIZE - o % BLOCK_DATA_SIZE))
    ((o + min (m + 1) (BLOCK_DATA_SIZE - o % BLOCK_DATA_SIZE)) % U64MOD)
    (by omega) (by omega)]
  rfl

theorem readLoop_pure_aux (c : Crypto) (reader : BlobReader) (aes : List Nat)
    (part : Partition) :
    ∀ fuel n, n ≤ fuel → ∀ (o : Nat) (cache : DecCache),
      PCoherent c reader aes part cache →
      ((readLoop c reader aes part o n cache).1
          = (readPure c reader aes part o n).isSome) ∧
      (∀ out, readPure c reader aes part o n = some out →
          (readLoop c reader aes part o n cache).2.2 = out) ∧
      PCoherent c reader aes part (readLoop c reader aes part o n cache).2.1 := by
  intro fuel
  induction fuel with
  | zero =>
      intro n hn o cache hc
      have hn0 : n = 0 := Nat.le_zero.mp hn
      subst hn0
      rw [readLoop_zero, readPure_zero]
      exact ⟨rfl, fun out h => by cases h; rfl, hc⟩
  | succ fuel ih =>
      intro n hn o cache hc
      by_cases hn0 : n = 0
      · subst hn0
        rw [readLoop_zero, readPure_zero]
        exact ⟨rfl, fun out h => by cases h; rfl, hc⟩
      · cases hf : fetchCluster c reader aes part o cache with
        | none =>
            rw [readLoop_fetch_none c reader aes part o n cache hn0 hf,
              readPure_dec_none c reader aes part o n hn0
                (fetchCluster_eq_none c reader aes part o cache hc hf)]
            exact ⟨rfl, fun out h => Option.noConfusion h, hc⟩
        | some cache1 =>
            obtain ⟨hd, hlast, hc1⟩ :=
              fetchCluster_eq_some c reader aes part o cache cache1 hc hf
            rw [readLoop_fetch_some c reader aes part o n cache cache1 hn0 hf,
              readPure_dec_some c reader aes part o n cache1.data hn0 hd]
            have hmlt : o % BLOCK_DATA_SIZE < BLOCK_DATA_SIZE :=
              Nat.mod_lt _ (by norm_num [BLOCK_DATA_SIZE])
            have hfle : n - min n (BLOCK_DATA_SIZE - o % BLOCK_DATA_SIZE) ≤ fuel := by
              omega
            obtain ⟨ihA, ihB, ihC⟩ :=
              ih (n - min n (BLOCK_DATA_SIZE - o % BLOCK_DATA_SIZE)) hfle
                ((o + min n (BLOCK_DATA_SIZE - o % BLOCK_DATA_SIZE)) % U64MOD) cache1 hc1
            cases hrp : readPure c reader aes part
                ((o + min n (BLOCK_DATA_SIZE - o % BLOCK_DATA_SIZE)) % U64MOD)
                (n - min n (BLOCK_DATA_SIZE - o % BLOCK_DATA_SIZE)) with
            | none =>
                rw [hrp] at ihA
                refine ⟨by simpa using ihA, fun out h => Option.noConfusion h, ihC⟩
            | some rest =>
                rw [hrp] at ihA
                refine ⟨by simpa using ihA, fun out h => ?_, ihC⟩
                have hout : ((cache1.data.drop (o % BLOCK_DATA_SIZE)).take
                    (min n (BLOCK_DATA_SIZE - o % BLOCK_DATA_SIZE))) ++ rest = out := by
                  simpa using h
                rw [← hout, ihB rest hrp]

theorem pcoherent_init (c : Crypto) (reader : BlobReader) (aes : List Nat)
    (part : Partition) (d : List Nat)
    (h : (part.offset + PARTITION_DATA_OFFSET) % BLOCK_TOTAL_SIZE ≠ BLOCK_TOTAL_SIZE - 1) :
    PCoherent c reader aes part ⟨U64MAX, d⟩ := by
  intro j hj
  exfalso
  apply h
  have hj' : U64MAX
      = (part.offset + PARTITION_DATA_OFFSET + j * BLOCK_TOTAL_SIZE) % U64MOD := hj
  have hdvd : (BLOCK_TOTAL_SIZE : Nat) ∣ U64MOD :=
    ⟨2 ^ 49, by norm_num [BLOCK_TOTAL_SIZE, U64MOD]⟩
  have h1 := congrArg (· % BLOCK_TOTAL_SIZE) hj'
  simp only [Nat.mod_mod_of_dvd _ hdvd, Nat.add_mul_mod_self_right] at h1
  rw [← h1]
  decide

/-- Claim C1: for `PARTITION_NONE`, `Read` delegates directly to the blob
reader and returns its result; for a partition of the map (given a cache
sound for it), `Read` serves the bytes cluster by cluster exactly as the
pure per-cluster description `readPure`: each touched cluster is fetched
at `part.offset + 0x20000 + readOffset / 0x7C00 * 0x8000`, its bytes
0x3D0..0x3E0 are the CBC IV for decrypting the 0x7C00 ciphertext bytes at
0x400 with the partition's key schedule, copying starts at intra-cluster
offset `readOffset mod 0x7C00`, and the call returns false iff some
cluster fetch from the blob reader fails. -/
theorem claimC1_read_clusterwise (c : Crypto) (v : VolumeWii) (reader : BlobReader) :
    (∀ o n cache, VolumeWii.Read c v reader o n PARTITION_NONE cache =
        (match reader.read o n with
          | some bs => (true, cache, bs)
          | none => (false, cache, ([] : List Nat)))) ∧
    (∀ part aes o n cache, part ≠ PARTITION_NONE →
      lookupKV v.partitionKeys part = some aes →
      PCoherent c reader aes part cache →
      ((VolumeWii.Read c v reader o n part cache).1
          = (readPure c reader aes part o n).isSome ∧
        ∀ out, readPure c reader aes part o n = some out →
          (VolumeWii.Read c v reader o n part cache).2.2 = out)) := by
  constructor
  · intro o n cache
    unfold VolumeWii.Read
    rw [if_pos rfl]
  · intro part aes o n cache hne hlk hc
    unfold VolumeWii.Read
    rw [if_neg hne, hlk]
    obtain ⟨hA, hB, _⟩ := readLoop_pure_aux c reader aes part n n le_rfl o cache hc
    exact ⟨hA, hB⟩

/-- A degenerate crypto instance used for concrete witnesses: decryption
returns the ciphertext, hashing returns 20 zero bytes. -/
def cWit : Crypto := ⟨fun _ _ ct => ct, fun _ => List.replicate 20 0⟩

/-- A total blob reader used for concrete witnesses: every read succeeds
with the byte 3 repeated. -/
def readerWit : BlobReader := ⟨fun _ len => some (List.replicate len 3)⟩

/-- A one-partition volume (offset 0) used for concrete witnesses. -/
def volWit : VolumeWii :=
  ⟨[(⟨0⟩, List.replicate 16 0)], [(⟨0⟩, ⟨List.replicate 0x2A4 0⟩)],
    [(⟨0⟩, ⟨List.replicate 0x1E4 0⟩)], ⟨0⟩⟩

theorem claimC1_read_clusterwise_witness :
    (⟨0⟩ : Partition) ≠ PARTITION_NONE ∧
    lookupKV volWit.partitionKeys ⟨0⟩ = some (List.replicate 16 0) ∧
    ((VolumeWii.Read cWit volWit readerWit 0 5 ⟨0⟩ ⟨U64MAX, []⟩).1
        = (readPure cWit readerWit (List.replicate 16 0) ⟨0⟩ 0 5).isSome ∧
      ∀ out, readPure cWit readerWit (List.replicate 16 0) ⟨0⟩ 0 5 = some out →
        (VolumeWii.Read cWit volWit readerWit 0 5 ⟨0⟩ ⟨U64MAX, []⟩).2.2 = out) := by
  refine ⟨by decide, by decide, ?_⟩
  exact (claimC1_read_clusterwise cWit volWit readerWit).2 ⟨0⟩ (List.replicate 16 0)
    0 5 ⟨U64MAX, []⟩ (by decide) (by decide)
    (pcoherent_init cWit readerWit (List.replicate 16 0) ⟨0⟩ [] (by decide))

theorem fetchCluster_cases (c : Crypto) (reader : BlobReader) (aes : List Nat)
    (part : Partition) (o : Nat) (cache cache1 : DecCache)
    (h : fetchCluster c reader aes part o cache = some cache1) :
    cache1 = cache ∨
      (cache1.last = blockOffsetOnDisc part o ∧
        decRaw c reader aes (blockOffsetOnDisc part o) = some cache1.data) := by
  unfold fetchCluster at h
  by_cases hhit : cache.last = blockOffsetOnDisc part o
  · simp only [if_pos hhit] at h
    cases h
    exact Or.inl rfl
  · simp only [if_neg hhit] at h
    cases hr : reader.read (blockOffsetOnDisc part o) BLOCK_TOTAL_SIZE with
    | none => rw [hr] at h; exact Option.noConfusion h
    | some buf =>
        rw [hr] at h
        cases h
        exact Or.inr ⟨rfl, by simp [decRaw, hr]⟩

theorem readLoop_vcoherent (c : Crypto) (reader : BlobReader) (v : VolumeWii)
    (aes : List Nat) (part : Partition)
    (hlk : lookupKV v.partitionKeys part = some aes) :
    ∀ fuel n, n ≤ fuel → ∀ (o : Nat) (cache : DecCache),
      VCoherent c reader v cache →
      VCoherent c reader v (readLoop c reader aes part o n cache).2.1 := by
  intro fuel
  induction fuel with
  | zero =>
      intro n hn o cache hc
      have hn0 : n = 0 := Nat.le_zero.mp hn
      subst hn0
      rw [readLoop_zero]
      exact hc
  | succ fuel ih =>
      intro n hn o cache hc
      by_cases hn0 : n = 0
      · subst hn0
        rw [readLoop_zero]
        exact hc
      · cases hf : fetchCluster c reader aes part o cache with
        | none =>
            rw [readLoop_fetch_none c reader aes part o n cache hn0 hf]
            exact hc
        | some cache1 =>
            rw [readLoop_fetch_some c reader aes part o n cache cache1 hn0 hf]
            have hmlt : o % BLOCK_DATA_SIZE < BLOCK_DATA_SIZE :=
              Nat.mod_lt _ (by norm_num [BLOCK_DATA_SIZE])
            have hfle : n - min n (BLOCK_DATA_SIZE - o % BLOCK_DATA_SIZE) ≤ fuel := by
              omega
            apply ih _ hfle
            rcases fetchCluster_cases c reader aes part o cache cache1 hf with heq | ⟨hl, hd⟩
            · rw [heq]; exact hc
            · intro hne
              exact ⟨part, aes, o / BLOCK_DATA_SIZE, hlk, hl, by rw [hl]; exact hd⟩

theorem read_vcoherent (c : Crypto) (v : VolumeWii) (reader : BlobReader)
    (o n : Nat) (part : Partition) (cache : DecCache)
    (hc : VCoherent c reader v cache) :
    VCoherent c reader v (VolumeWii.Read c v reader o n part cache).2.1 := by
  unfold VolumeWii.Read
  by_cases hp : part = PARTITION_NONE
  · rw [if_pos hp]
    cases reader.read o n with
    | none => exact hc
    | some bs => exact hc
  · rw [if_neg hp]
    cases hlk : lookupKV v.partitionKeys part with
    | none => exact hc
    | some aes =>
        exact readLoop_vcoherent c reader v aes part hlk n n le_rfl o cache hc

theorem integrityClusters_nil (c : Crypto) (v : VolumeWii) (reader : BlobReader)
    (aes : List Nat) (part : Partition) (cache : DecCache) :
    integrityClusters c v reader aes part [] cache = (true, cache) := rfl

theorem integrityClusters_cons_mdfail (c : Crypto) (v : VolumeWii) (reader : BlobReader)
    (aes : List Nat) (part : Partition) (i : Nat) (rest : List Nat) (cache : DecCache)
    (hm : reader.read ((part.offset + PARTITION_DATA_OFFSET + i * BLOCK_TOTAL_SIZE) % U64MOD)
        0x400 = none) :
    integrityClusters c v reader aes part (i :: rest) cache = (false, cache) := by
  conv_lhs => unfold integrityClusters
  simp only []
  rw [hm]

theorem integrityClusters_cons_hole (c : Crypto) (v : VolumeWii) (reader : BlobReader)
    (aes : List Nat) (part : Partition) (i : Nat) (rest : List Nat) (cache : DecCache)
    (mdCrypted : List Nat)
    (hm : reader.read ((part.offset + PARTITION_DATA_OFFSET + i * BLOCK_TOTAL_SIZE) % U64MOD)
        0x400 = some mdCrypted)
    (hh : clusterIsHole (c.aesCbcDecrypt aes (List.replicate 16 0) mdCrypted) = true) :
    integrityClusters c v reader aes part (i :: rest) cache
      = integrityClusters c v reader aes part rest cache := by
  conv_lhs => unfold integrityClusters
  simp only []
  rw [hm]
  simp only []
  rw [if_pos hh]

theorem integrityClusters_cons_readfail (c : Crypto) (v : VolumeWii) (reader : BlobReader)
    (aes : List Nat) (part : Partition) (i : Nat) (rest : List Nat) (cache : DecCache)
    (mdCrypted : List Nat) (cache1 : DecCache) (bytes : List Nat)
    (hm : reader.read ((part.offset + PARTITION_DATA_OFFSET + i * BLOCK_TOTAL_SIZE) % U64MOD)
        0x400 = some mdCrypted)
    (hh : clusterIsHole (c.aesCbcDecrypt aes (List.replicate 16 0) mdCrypted) = false)
    (hR : VolumeWii.Read c v reader (i * 0x7C00) 0x7C00 part cache = (false, cache1, bytes)) :
    integrityClusters c v reader aes part (i :: rest) cache = (false, cache1) := by
  conv_lhs => unfold integrityClusters
  simp only []
  rw [hm]
  simp only []
  rw [if_neg (by rw [hh]; exact Bool.false_ne_true), hR]

theorem integrityClusters_cons_hashfail (c : Crypto) (v : VolumeWii) (reader : BlobReader)
    (aes : List Nat) (part : Partition) (i : Nat) (rest : List Nat) (cache : DecCache)
    (mdCrypted : List Nat) (cache1 : DecCache) (bytes : List Nat)
    (hm : reader.read ((part.offset + PARTITION_DATA_OFFSET + i * BLOCK_TOTAL_SIZE) % U64MOD)
        0x400 = some mdCrypted)
    (hh : clusterIsHole (c.aesCbcDecrypt aes (List.replicate 16 0) mdCrypted) = false)
    (hR : VolumeWii.Read c v reader (i * 0x7C00) 0x7C00 part cache = (true, cache1, bytes))
    (hk : clusterHashesOk c (c.aesCbcDecrypt aes (List.replicate 16 0) mdCrypted) bytes
        = false) :
    integrityClusters c v reader aes part (i :: rest) cache = (false, cache1) := by
  conv_lhs => unfold integrityClusters
  simp only []
  rw [hm]
  simp only []
  rw [if_neg (by rw [hh]; exact Bool.false_ne_true), hR]
  simp only []
  rw [if_neg (by rw [hk]; exact Bool.false_ne_true)]

theorem integrityClusters_cons_hashok (c : Crypto) (v : VolumeWii) (reader : BlobReader)
    (aes : List Nat) (part : Partition) (i : Nat) (rest : List Nat) (cache : DecCache)
    (mdCrypted : List Nat) (cache1 : DecCache) (bytes : List Nat)
    (hm : reader.read ((part.offset + PARTITION_DATA_OFFSET + i * BLOCK_TOTAL_SIZE) % U64MOD)
        0x400 = some mdCrypted)
    (hh : clusterIsHole (c.aesCbcDecrypt aes (List.replicate 16 0) mdCrypted) = false)
    (hR : VolumeWii.Read c v reader (i * 0x7C00) 0x7C00 part cache = (true, cache1, bytes))
    (hk : clusterHashesOk c (c.aesCbcDecrypt aes (List.replicate 16 0) mdCrypted) bytes
        = true) :
    integrityClusters c v reader aes part (i :: rest) cache
      = integrityClusters c v reader aes part rest cache1 := by
  conv_lhs => unfold integrityClusters
  simp only []
  rw [hm]
  simp only []
  rw [if_neg (by rw [hh]; exact Bool.false_ne_true), hR]
  simp only []
  rw [if_pos hk]

theorem integrityClusters_vcoherent (c : Crypto) (v : VolumeWii) (reader : BlobReader)
    (aes : List Nat) (part : Partition) :
    ∀ (ids : List Nat) (cache : DecCache), VCoherent c reader v cache →
      VCoherent c reader v (integrityClusters c v reader aes part ids cache).2 := by
  intro ids
  induction ids with
  | nil => intro cache hc; exact hc
  | cons i rest ih =>
      intro cache hc
      cases hm : reader.read
          ((part.offset + PARTITION_DATA_OFFSET + i * BLOCK_TOTAL_SIZE) % U64MOD) 0x400 with
      | none =>
          rw [integrityClusters_cons_mdfail c v reader aes part i rest cache hm]
          exact hc
      | some mdCrypted =>
          cases hh : clusterIsHole (c.aesCbcDecrypt aes (List.replicate 16 0) mdCrypted) with
          | true =>
              rw [integrityClusters_cons_hole c v reader aes part i rest cache mdCrypted hm hh]
              exact ih cache hc
          | false =>
              rcases hR : VolumeWii.Read c v reader (i * 0x7C00) 0x7C00 part cache with
                ⟨b, cache1, bytes⟩
              have hc1 : VCoherent c reader v cache1 := by
                have h2 := read_vcoherent c v reader (i * 0x7C00) 0x7C00 part cache hc
                rw [hR] at h2
                exact h2
              cases b with
              | false =>
                  rw [integrityClusters_cons_readfail c v reader aes part i rest cache
                    mdCrypted cache1 bytes hm hh hR]
                  exact hc1
              | true =>
                  cases hk : clusterHashesOk c
                      (c.aesCbcDecrypt aes (List.replicate 16 0) mdCrypted) bytes with
                  | false =>
                      rw [integrityClusters_cons_hashfail c v reader aes part i rest cache
                        mdCrypted cache1 bytes hm hh hR hk]
                      exact hc1
                  | true =>
                      rw [integrityClusters_cons_hashok c v reader aes part i rest cache
                        mdCrypted cache1 bytes hm hh hR hk]
                      exact ih cache1 hc1

theorem checkIntegrity_vcoherent (c : Crypto) (v : VolumeWii) (reader : BlobReader)
    (part : Partition) (cache : DecCache) (g : Nat)
    (hc : VCoherent c reader v cache) :
    VCoherent c reader v (VolumeWii.CheckIntegrity c v reader part cache g).2 := by
  unfold VolumeWii.CheckIntegrity
  cases hlk : lookupKV v.partitionKeys part with
  | none => exact hc
  | some aes =>
      exact integrityClusters_vcoherent c v reader aes part _ cache hc

/-- Claim C4: at every point after construction (i.e. in every cache
state reachable by a sequence of `Read` and `CheckIntegrity` calls), if
the cache tag is not `U64MAX` then the one-slot cache buffer holds the
AES-128-CBC decryption of the 0x7C00-byte data region of the cluster
starting at that absolute disc offset (IV taken from its bytes
0x3D0..0x3E0), decrypted with the key schedule of a partition of the map
whose cluster geometry contains that offset. -/
theorem claimC4_cache_invariant (c : Crypto) (reader : BlobReader) (v : VolumeWii)
    (s : DecCache) (h : CacheReachable c reader v s) : VCoherent c reader v s := by
  induction h with
  | init d => exact fun hne => absurd rfl hne
  | readStep s o n p hs ih => exact read_vcoherent c v reader o n p s ih
  | checkStep s p g hs ih => exact checkIntegrity_vcoherent c v reader p s g ih

theorem claimC4_cache_invariant_witness :
    VCoherent cWit readerWit volWit
      (VolumeWii.Read cWit volWit readerWit 0 5 ⟨0⟩ ⟨U64MAX, []⟩).2.1 :=
  claimC4_cache_invariant cWit readerWit volWit _
    (CacheReachable.readStep ⟨U64MAX, []⟩ 0 5 ⟨0⟩ (CacheReachable.init []))

theorem beBytes_foldl_lt (bs : List Nat) :
    ∀ a : Nat, bs.foldl (fun x y => x * 256 + y % 256) a < (a + 1) * 256 ^ bs.length := by
  induction bs with
  | nil => intro a; simp
  | cons b rest ih =>
      intro a
      have h1 := ih (a * 256 + b % 256)
      have hb : b % 256 < 256 := Nat.mod_lt _ (by norm_num)
      have h2 : (a * 256 + b % 256 + 1) * 256 ^ rest.length
          ≤ ((a + 1) * 256) * 256 ^ rest.length := by
        apply Nat.mul_le_mul_right
        omega
      calc (b :: rest).foldl (fun x y => x * 256 + y % 256) a
          = rest.foldl (fun x y => x * 256 + y % 256) (a * 256 + b % 256) := rfl
        _ < (a * 256 + b % 256 + 1) * 256 ^ rest.length := h1
        _ ≤ ((a + 1) * 256) * 256 ^ rest.length := h2
        _ = (a + 1) * 256 ^ (b :: rest).length := by
            simp [List.length_cons, Nat.pow_succ]
            ring

theorem beBytes_lt (bs : List Nat) : beBytes bs < 256 ^ bs.length := by
  have h := beBytes_foldl_lt bs 0
  unfold beBytes
  omega

theorem integrityClusters_spec (c : Crypto) (v : VolumeWii) (reader : BlobReader)
    (aes : List Nat) (part : Partition)
    (hne : part ≠ PARTITION_NONE)
    (hlk : lookupKV v.partitionKeys part = some aes) :
    ∀ (ids : List Nat) (cache : DecCache), PCoherent c reader aes part cache →
      (integrityClusters c v reader aes part ids cache).1
        = ids.all (clusterSpecOK c reader aes part) := by
  intro ids
  induction ids with
  | nil => intro cache hc; rfl
  | cons i rest ih =>
      intro cache hc
      cases hm : reader.read
          ((part.offset + PARTITION_DATA_OFFSET + i * BLOCK_TOTAL_SIZE) % U64MOD) 0x400 with
      | none =>
          rw [integrityClusters_cons_mdfail c v reader aes part i rest cache hm]
          have hspec : clusterSpecOK c reader aes part i = false := by
            simp only [clusterSpecOK, clusterMetaPlain, hm]
            rfl
          rw [List.all_cons, hspec, Bool.false_and]
      | some mdCrypted =>
          have hmeta : clusterMetaPlain c reader aes part i
              = some (c.aesCbcDecrypt aes (List.replicate 16 0) mdCrypted) := by
            simp [clusterMetaPlain, hm]
          cases hh : clusterIsHole (c.aesCbcDecrypt aes (List.replicate 16 0) mdCrypted) with
          | true =>
              rw [integrityClusters_cons_hole c v reader aes part i rest cache mdCrypted hm hh,
                ih cache hc]
              have hspec : clusterSpecOK c reader aes part i = true := by
                simp only [clusterSpecOK, hmeta, hh, Bool.true_or]
              rw [List.all_cons, hspec, Bool.true_and]
          | false =>
              have hRead : VolumeWii.Read c v reader (i * 0x7C00) 0x7C00 part cache
                  = readLoop c reader aes part (i * 0x7C00) 0x7C00 cache := by
                unfold VolumeWii.Read
                rw [if_neg hne, hlk]
              obtain ⟨hA, hB, hC⟩ := readLoop_pure_aux c reader aes part 0x7C00 0x7C00
                le_rfl (i * 0x7C00) cache hc
              rcases hL : readLoop c reader aes part (i * 0x7C00) 0x7C00 cache with
                ⟨b, cache1, bytes⟩
              rw [hL] at hA hC
              cases hrp : readPure c reader aes part (i * 0x7C00) 0x7C00 with
              | none =>
                  rw [hrp] at hA
                  simp only [Option.isSome_none] at hA
                  subst hA
                  rw [integrityClusters_cons_readfail c v reader aes part i rest cache
                    mdCrypted cache1 bytes hm hh (hRead.trans hL)]
                  have hspec : clusterSpecOK c reader aes part i = false := by
                    simp only [clusterSpecOK, hmeta, hh, hrp, Bool.false_or]
                  rw [List.all_cons, hspec, Bool.false_and]
              | some payload =>
                  rw [hrp] at hA
                  simp only [Option.isSome_some] at hA
                  subst hA
                  have hbytes : bytes = payload := by
                    have h3 := hB payload hrp
                    rw [hL] at h3
                    exact h3
                  subst hbytes
                  cases hk : clusterHashesOk c
                      (c.aesCbcDecrypt aes (List.replicate 16 0) mdCrypted) bytes with
                  | false =>
                      rw [integrityClusters_cons_hashfail c v reader aes part i rest cache
                        mdCrypted cache1 bytes hm hh (hRead.trans hL) hk]
                      have hspec : clusterSpecOK c reader aes part i = false := by
                        simp only [clusterSpecOK, hmeta, hh, hrp, hk, Bool.false_or]
                      rw [List.all_cons, hspec, Bool.false_and]
                  | true =>
                      rw [integrityClusters_cons_hashok c v reader aes part i rest cache
                        mdCrypted cache1 bytes hm hh (hRead.trans hL) hk,
                        ih cache1 hC]
                      have hspec : clusterSpecOK c reader aes part i = true := by
                        simp only [clusterSpecOK, hmeta, hh, hrp, hk, Bool.false_or]
                      rw [List.all_cons, hspec, Bool.true_and]

/-- Claim C2: for a partition of the map, `CheckIntegrity` walks clusters
`0 ≤ i < (u32_be(part.offset + 0x2BC) * 4) / 0x8000`; a cluster is
skipped without examining any hash iff some byte of its zero-IV-decrypted
metadata at 0x26C..0x280 is non-zero; a non-skipped cluster's 0x7C00-byte
decrypted payload is read through the encrypted read path and each of the
31 SHA-1 values of its 1024-byte sub-blocks must equal the corresponding
20-byte metadata slot; the result is false on any metadata-read failure,
payload-read failure or hash mismatch, and true iff every non-skipped
cluster passes all 31 comparisons — which is what `checkIntegritySpec`
states. -/
theorem claimC2_checkIntegrity (c : Crypto) (v : VolumeWii) (reader : BlobReader)
    (part : Partition) (aes : List Nat) (cache : DecCache) (g : Nat)
    (sizeBytes : List Nat)
    (hne : part ≠ PARTITION_NONE)
    (hlk : lookupKV v.partitionKeys part = some aes)
    (hsz : reader.read ((part.offset + 0x2BC) % U64MOD) 4 = some sizeBytes)
    (hlen : sizeBytes.length = 4)
    (hc : PCoherent c reader aes part cache) :
    (VolumeWii.CheckIntegrity c v reader part cache g).1
      = checkIntegritySpec c reader aes part (beBytes sizeBytes * 4 / 0x8000) := by
  unfold VolumeWii.CheckIntegrity
  rw [hlk]
  simp only []
  rw [hsz]
  simp only []
  have hbd : beBytes sizeBytes < 2 ^ 32 := by
    have h := beBytes_lt sizeBytes
    rw [hlen] at h
    norm_num at h ⊢
    omega
  have hmod : beBytes sizeBytes * 4 / 0x8000 % 2 ^ 32 = beBytes sizeBytes * 4 / 0x8000 := by
    apply Nat.mod_eq_of_lt
    omega
  rw [hmod]
  exact integrityClusters_spec c v reader aes part hne hlk
    (List.range (beBytes sizeBytes * 4 / 0x8000)) cache hc

theorem claimC2_checkIntegrity_witness :
    (⟨0⟩ : Partition) ≠ PARTITION_NONE ∧
    lookupKV volWit.partitionKeys ⟨0⟩ = some (List.replicate 16 0) ∧
    readerWit.read ((0 + 0x2BC) % U64MOD) 4 = some (List.replicate 4 3) ∧
    (List.replicate 4 3).length = 4 ∧
    (VolumeWii.CheckIntegrity cWit volWit readerWit ⟨0⟩ ⟨U64MAX, []⟩ 0).1
      = checkIntegritySpec cWit readerWit (List.replicate 16 0) ⟨0⟩
          (beBytes (List.replicate 4 3) * 4 / 0x8000) := by
  refine ⟨by decide, by decide, rfl, by decide, ?_⟩
  exact claimC2_checkIntegrity cWit volWit readerWit ⟨0⟩ (List.replicate 16 0)
    ⟨U64MAX, []⟩ 0 (List.replicate 4 3) (by decide) (by decide) rfl (by decide)
    (pcoherent_init cWit readerWit (List.replicate 16 0) ⟨0⟩ [] (by decide))

/-- Claim C6 fails as stated: with u64 arithmetic the raw offset wraps
around, so `raw_offset(p, o) ≥ p.offset + 0x20000` does not hold for
every partition and offset. At `p.offset = 2^64 - 0x20001` and `o = 1`
the computed raw offset is 0 while `p.offset + 0x20000 = 2^64 - 1`. -/
theorem claimC6_counterexample :
    (⟨U64MOD - 0x20001⟩ : Partition) ≠ PARTITION_NONE ∧
    VolumeWii.PartitionOffsetToRawOffset 1 ⟨U64MOD - 0x20001⟩ = 0 ∧
    VolumeWii.PartitionOffsetToRawOffset 1 ⟨U64MOD - 0x20001⟩
      < (U64MOD - 0x20001) + 0x20000 := by
  refine ⟨by decide, by decide, by decide⟩

/-- Claim C6 (amended): `raw_offset(NONE, o) = o`; for `p ≠ NONE`,
`raw_offset(p, o) = (p.offset + 0x20000 + o / 0x7C00 * 0x8000
+ o mod 0x7C00) mod 2^64` (the u64 value of the source's formula); and
whenever that sum does not overflow u64, `raw_offset(p, o) ≥ p.offset
+ 0x20000` with the difference equal to `o / 0x7C00 * 0x8000
+ o mod 0x7C00`. -/
theorem claimC6_raw_offset (o : Nat) :
    VolumeWii.PartitionOffsetToRawOffset o PARTITION_NONE = o ∧
    (∀ part : Partition, part ≠ PARTITION_NONE →
      VolumeWii.PartitionOffsetToRawOffset o part
        = (part.offset + 0x20000 + o / 0x7C00 * 0x8000 + o % 0x7C00) % U64MOD) ∧
    (∀ part : Partition, part ≠ PARTITION_NONE →
      part.offset + 0x20000 + o / 0x7C00 * 0x8000 + o % 0x7C00 < U64MOD →
      part.offset + 0x20000 ≤ VolumeWii.PartitionOffsetToRawOffset o part ∧
      VolumeWii.PartitionOffsetToRawOffset o part - (part.offset + 0x20000)
        = o / 0x7C00 * 0x8000 + o % 0x7C00) := by
  refine ⟨?_, ?_, ?_⟩
  · unfold VolumeWii.PartitionOffsetToRawOffset
    rw [if_pos rfl]
  · intro part hne
    unfold VolumeWii.PartitionOffsetToRawOffset
    rw [if_neg hne]
    rfl
  · intro part hne hlt
    unfold VolumeWii.PartitionOffsetToRawOffset
    rw [if_neg hne]
    have he : (part.offset + PARTITION_DATA_OFFSET
          + o / BLOCK_DATA_SIZE * BLOCK_TOTAL_SIZE + o % BLOCK_DATA_SIZE) % U64MOD
        = part.offset + 0x20000 + o / 0x7C00 * 0x8000 + o % 0x7C00 :=
      Nat.mod_eq_of_lt hlt
    rw [he]
    omega

theorem claimC6_raw_offset_witness :
    VolumeWii.PartitionOffsetToRawOffset 5 PARTITION_NONE = 5 ∧
    ((⟨0⟩ : Partition) ≠ PARTITION_NONE) ∧
    VolumeWii.PartitionOffsetToRawOffset 5 ⟨0⟩
      = (0 + 0x20000 + 5 / 0x7C00 * 0x8000 + 5 % 0x7C00) % U64MOD ∧
    0 + 0x20000 ≤ VolumeWii.PartitionOffsetToRawOffset 5 ⟨0⟩ ∧
    VolumeWii.PartitionOffsetToRawOffset 5 ⟨0⟩ - (0 + 0x20000)
      = 5 / 0x7C00 * 0x8000 + 5 % 0x7C00 := by
  obtain ⟨h1, h2, h3⟩ := claimC6_raw_offset 5
  exact ⟨h1, by decide, h2 ⟨0⟩ (by decide),
    (h3 ⟨0⟩ (by decide) (by decide)).1, (h3 ⟨0⟩ (by decide) (by decide)).2⟩

/-- Claim C10: if the big-endian u32 read at offset 0x60 fails, the
constructor behaves exactly as for a non-zero magic: it records zero
partitions (empty maps), leaves the game partition `PARTITION_NONE`, and
every subsequent read is the unencrypted passthrough (reads with any
other partition descriptor fail on the empty map). -/
theorem claimC10_magic_read_failure (reader : BlobReader)
    (h : reader.ReadSwapped32 0x60 = none) :
    VolumeWii.construct reader = emptyVolume ∧
    (VolumeWii.construct reader).partitionKeys = [] ∧
    (VolumeWii.construct reader).gamePartition = PARTITION_NONE ∧
    (∀ c o n cache,
      VolumeWii.Read c (VolumeWii.construct reader) reader o n PARTITION_NONE cache
        = (match reader.read o n with
            | some bs => (true, cache, bs)
            | none => (false, cache, ([] : List Nat)))) ∧
    (∀ c o n part cache, part ≠ PARTITION_NONE →
      VolumeWii.Read c (VolumeWii.construct reader) reader o n part cache
        = (false, cache, [])) := by
  have hcon : VolumeWii.construct reader = emptyVolume := by
    unfold VolumeWii.construct
    rw [if_pos (by rw [h]; exact fun hx => Option.noConfusion hx)]
  refine ⟨hcon, by rw [hcon]; rfl, by rw [hcon]; rfl, ?_, ?_⟩
  · intro c o n cache
    unfold VolumeWii.Read
    rw [if_pos rfl]
  · intro c o n part cache hne
    rw [hcon]
    unfold VolumeWii.Read
    rw [if_neg hne]
    rfl

/-- A blob reader on which every read fails, used for witnesses. -/
def readerNoneWit : BlobReader := ⟨fun _ _ => none⟩

theorem claimC10_magic_read_failure_witness :
    readerNoneWit.ReadSwapped32 0x60 = none ∧
    VolumeWii.construct readerNoneWit = emptyVolume ∧
    (VolumeWii.construct readerNoneWit).partitionKeys = [] ∧
    (VolumeWii.construct readerNoneWit).gamePartition = PARTITION_NONE := by
  have h := claimC10_magic_read_failure readerNoneWit rfl
  exact ⟨rfl, h.1, h.2.1, h.2.2.1⟩

theorem lookup_insertKV {α : Type} (m : List (Partition × α)) (k : Partition) (a : α)
    (p : Partition) :
    lookupKV (insertKV m k a) p = if k = p then some a else lookupKV m p := by
  induction m with
  | nil => rfl
  | cons hd tl ih =>
      rcases hd with ⟨k1, a1⟩
      unfold insertKV
      by_cases hk : k1 = k
      · subst hk
        rw [if_pos rfl]
        by_cases hp : k1 = p
        · unfold lookupKV
          rw [if_pos hp, if_pos hp]
        · unfold lookupKV
          rw [if_neg hp, if_neg hp, if_neg hp]
      · rw [if_neg hk]
        by_cases hp : k1 = p
        · subst hp
          unfold lookupKV
          rw [if_pos rfl, if_pos rfl, if_neg (fun he => hk he.symm)]
        · unfold lookupKV
          rw [if_neg hp, if_neg hp, ih]

/-- The three partition maps of the volume have the same key set. -/
def sameDomains (v : VolumeWii) : Prop :=
  ∀ p : Partition,
    (lookupKV v.partitionKeys p).isSome = (lookupKV v.partitionTickets p).isSome ∧
    (lookupKV v.partitionKeys p).isSome = (lookupKV v.partitionTmds p).isSome

theorem processEntry_sameDomains (reader : BlobReader) (tableOff : Nat)
    (st : VolumeWii) (i : Nat) (h : sameDomains st) :
    sameDomains (processEntry reader tableOff st i) := by
  unfold processEntry
  cases he : entryResult reader tableOff i with
  | none => exact h
  | some r =>
      rcases r with ⟨part, key, ticket, tmd⟩
      intro p
      simp only [lookup_insertKV]
      by_cases hp : part = p
      · rw [if_pos hp, if_pos hp, if_pos hp]
        exact ⟨rfl, rfl⟩
      · rw [if_neg hp, if_neg hp, if_neg hp]
        exact h p

theorem foldl_processEntry_sameDomains (reader : BlobReader) :
    ∀ (es : List (Nat × Nat)) (st : VolumeWii), sameDomains st →
      sameDomains (es.foldl (fun s e => processEntry reader e.1 s e.2) st) := by
  intro es
  induction es with
  | nil => intro st h; exact h
  | cons e rest ih =>
      intro st h
      exact ih _ (processEntry_sameDomains reader e.1 st e.2 h)

theorem range_foldl_processEntry_sameDomains (reader : BlobReader) (tableOff : Nat) :
    ∀ (ids : List Nat) (st : VolumeWii), sameDomains st →
      sameDomains (ids.foldl (processEntry reader tableOff) st) := by
  intro ids
  induction ids with
  | nil => intro st h; exact h
  | cons i rest ih =>
      intro st h
      exact ih _ (processEntry_sameDomains reader tableOff st i h)

theorem processGroup_sameDomains (reader : BlobReader) (st : VolumeWii) (group : Nat)
    (h : sameDomains st) : sameDomains (processGroup reader st group) := by
  unfold processGroup
  cases reader.ReadSwapped32 (0x40000 + group * 8) with
  | none => exact h
  | some numberOfPartitions =>
      cases reader.ReadSwapped32 (0x40000 + group * 8 + 4) with
      | none => exact h
      | some tablePtr =>
          exact range_foldl_processEntry_sameDomains reader (tablePtr * 4) _ st h

theorem construct_sameDomains (reader : BlobReader) :
    sameDomains (VolumeWii.construct reader) := by
  have hempty : sameDomains emptyVolume := fun p => ⟨rfl, rfl⟩
  unfold VolumeWii.construct
  by_cases hm : reader.ReadSwapped32 0x60 ≠ some 0
  · rw [if_pos hm]
    exact hempty
  · rw [if_neg hm]
    have h4 : ∀ (gs : List Nat) (st : VolumeWii), sameDomains st →
        sameDomains (gs.foldl (processGroup reader) st) := by
      intro gs
      induction gs with
      | nil => intro st h; exact h
      | cons g rest ih =>
          intro st h
          exact ih _ (processGroup_sameDomains reader st g h)
    exact h4 (List.range 4) emptyVolume hempty

/-- Claim C8: for any partition descriptor that is neither
`PARTITION_NONE` nor a key of a constructed volume's partition map:
`Read` returns false for every offset and length (including 0),
`CheckIntegrity` returns false, `GetTicket`/`GetTMD` return the sentinel
invalid views whose `IsValid` is false, and `GetTitleID` returns none. -/
theorem claimC8_unknown_partition (c : Crypto) (reader : BlobReader) (part : Partition)
    (hne : part ≠ PARTITION_NONE)
    (hun : lookupKV (VolumeWii.construct reader).partitionKeys part = none) :
    (∀ o n cache, VolumeWii.Read c (VolumeWii.construct reader) reader o n part cache
        = (false, cache, [])) ∧
    (∀ cache g, VolumeWii.CheckIntegrity c (VolumeWii.construct reader) reader part cache g
        = (false, cache)) ∧
    VolumeWii.GetTicket (VolumeWii.construct reader) part = INVALID_TICKET ∧
    INVALID_TICKET.IsValid = false ∧
    VolumeWii.GetTMD (VolumeWii.construct reader) part = INVALID_TMD ∧
    INVALID_TMD.IsValid = false ∧
    VolumeWii.GetTitleID (VolumeWii.construct reader) part = none := by
  have hdom := construct_sameDomains reader part
  have hticket : lookupKV (VolumeWii.construct reader).partitionTickets part = none := by
    have h1 := hdom.1
    rw [hun] at h1
    cases hx : lookupKV (VolumeWii.construct reader).partitionTickets part with
    | none => rfl
    | some t => rw [hx] at h1; exact Bool.noConfusion h1
  have htmd : lookupKV (VolumeWii.construct reader).partitionTmds part = none := by
    have h2 := hdom.2
    rw [hun] at h2
    cases hx : lookupKV (VolumeWii.construct reader).partitionTmds part with
    | none => rfl
    | some t => rw [hx] at h2; exact Bool.noConfusion h2
  have hget : VolumeWii.GetTicket (VolumeWii.construct reader) part = INVALID_TICKET := by
    unfold VolumeWii.GetTicket
    rw [hticket]
  refine ⟨?_, ?_, hget, rfl, ?_, rfl, ?_⟩
  · intro o n cache
    unfold VolumeWii.Read
    rw [if_neg hne, hun]
  · intro cache g
    unfold VolumeWii.CheckIntegrity
    rw [hun]
  · unfold VolumeWii.GetTMD
    rw [htmd]
  · unfold VolumeWii.GetTitleID
    rw [hget]
    rfl

theorem claimC8_unknown_partition_witness :
    ((⟨5⟩ : Partition) ≠ PARTITION_NONE) ∧
    lookupKV (VolumeWii.construct readerNoneWit).partitionKeys ⟨5⟩ = none ∧
    VolumeWii.Read cWit (VolumeWii.construct readerNoneWit) readerNoneWit 0 0 ⟨5⟩
        ⟨U64MAX, []⟩ = (false, ⟨U64MAX, []⟩, []) ∧
    VolumeWii.CheckIntegrity cWit (VolumeWii.construct readerNoneWit) readerNoneWit ⟨5⟩
        ⟨U64MAX, []⟩ 0 = (false, ⟨U64MAX, []⟩) ∧
    VolumeWii.GetTicket (VolumeWii.construct readerNoneWit) ⟨5⟩ = INVALID_TICKET ∧
    VolumeWii.GetTitleID (VolumeWii.construct readerNoneWit) ⟨5⟩ = none := by
  obtain ⟨h1, h2, h3, h4, h5, h6, h7⟩ :=
    claimC8_unknown_partition cWit readerNoneWit ⟨5⟩ (by decide) rfl
  exact ⟨by decide, rfl, h1 0 0 ⟨U64MAX, []⟩, h2 ⟨U64MAX, []⟩ 0, h3, h7⟩

set_option maxRecDepth 4000

theorem BLOCK_DATA_SIZE_eq : BLOCK_DATA_SIZE = 31744 := rfl

theorem BLOCK_TOTAL_SIZE_eq : BLOCK_TOTAL_SIZE = 32768 := rfl

theorem U64MOD_eq : U64MOD = 18446744073709551616 := rfl

theorem fetchCluster_last (c : Crypto) (reader : BlobReader) (aes : List Nat)
    (part : Partition) (o : Nat) (cache cache1 : DecCache)
    (h : fetchCluster c reader aes part o cache = some cache1) :
    cache1.last = blockOffsetOnDisc part o := by
  unfold fetchCluster at h
  by_cases hhit : cache.last = blockOffsetOnDisc part o
  · simp only [if_pos hhit] at h
    cases h
    exact hhit
  · simp only [if_neg hhit] at h
    cases hr : reader.read (blockOffsetOnDisc part o) BLOCK_TOTAL_SIZE with
    | none => rw [hr] at h; exact Option.noConfusion h
    | some buf =>
        rw [hr] at h
        cases h
        rfl

theorem readLoop_split (c : Crypto) (reader : BlobReader) (aes : List Nat)
    (part : Partition) :
    ∀ fuel n, n ≤ fuel → ∀ k o cache, k ≤ n → o + n ≤ U64MOD →
      (readLoop c reader aes part o n cache).1 = true →
      (readLoop c reader aes part o k cache).1 = true ∧
      (readLoop c reader aes part ((o + k) % U64MOD) (n - k)
          (readLoop c reader aes part o k cache).2.1).1 = true ∧
      (readLoop c reader aes part ((o + k) % U64MOD) (n - k)
          (readLoop c reader aes part o k cache).2.1).2.1
        = (readLoop c reader aes part o n cache).2.1 ∧
      (readLoop c reader aes part o n cache).2.2
        = (readLoop c reader aes part o k cache).2.2
          ++ (readLoop c reader aes part ((o + k) % U64MOD) (n - k)
              (readLoop c reader aes part o k cache).2.1).2.2 := by
  intro fuel
  induction fuel with
  | zero =>
      intro n hn k o cache hk hno hs
      have hn0 : n = 0 := Nat.le_zero.mp hn
      subst hn0
      have hk0 : k = 0 := Nat.le_zero.mp hk
      subst hk0
      simp [Nat.sub_self, readLoop_zero]
  | succ fuel ih =>
      intro n hn k o cache hk hno hs
      by_cases hn0 : n = 0
      · subst hn0
        have hk0 : k = 0 := Nat.le_zero.mp hk
        subst hk0
        simp [Nat.sub_self, readLoop_zero]
      · cases hf : fetchCluster c reader aes part o cache with
        | none =>
            rw [readLoop_fetch_none c reader aes part o n cache hn0 hf] at hs
            exact absurd hs (by simp)
        | some cache1 =>
            have hdlt : o % BLOCK_DATA_SIZE < BLOCK_DATA_SIZE :=
              Nat.mod_lt _ (by norm_num [BLOCK_DATA_SIZE])
            have hbig := readLoop_fetch_some c reader aes part o n cache cache1 hn0 hf
            have htail : (readLoop c reader aes part
                ((o + min n (BLOCK_DATA_SIZE - o % BLOCK_DATA_SIZE)) % U64MOD)
                (n - min n (BLOCK_DATA_SIZE - o % BLOCK_DATA_SIZE)) cache1).1 = true := by
              have h2 := hs
              rw [hbig] at h2
              exact h2
            by_cases hk0 : k = 0
            · subst hk0
              have holt : o < U64MOD := by
                simp only [U64MOD_eq] at hno ⊢
                omega
              have ho : (o + 0) % U64MOD = o := by
                rw [Nat.add_zero]
                exact Nat.mod_eq_of_lt holt
              rw [ho, Nat.sub_zero, readLoop_zero]
              exact ⟨rfl, hs, rfl, rfl⟩
            · by_cases hkc : k < min n (BLOCK_DATA_SIZE - o % BLOCK_DATA_SIZE)
              · -- the split point falls inside the first copied chunk
                have hmink : min k (BLOCK_DATA_SIZE - o % BLOCK_DATA_SIZE) = k := by
                  simp only [BLOCK_DATA_SIZE_eq] at hkc ⊢
                  omega
                have hr1 : readLoop c reader aes part o k cache
                    = (true, cache1,
                        (cache1.data.drop (o % BLOCK_DATA_SIZE)).take k) := by
                  rw [readLoop_fetch_some c reader aes part o k cache cache1 hk0 hf, hmink,
                    Nat.sub_self, readLoop_zero]
                  simp
                have hklt : k < n := by
                  simp only [BLOCK_DATA_SIZE_eq] at hkc
                  omega
                have hoklt : o + k < U64MOD := by
                  simp only [U64MOD_eq] at hno ⊢
                  omega
                have hok : (o + k) % U64MOD = o + k := Nat.mod_eq_of_lt hoklt
                have hdiv : (o + k) / BLOCK_DATA_SIZE = o / BLOCK_DATA_SIZE := by
                  simp only [BLOCK_DATA_SIZE_eq] at hkc hdlt ⊢
                  omega
                have hmod2 : (o + k) % BLOCK_DATA_SIZE = o % BLOCK_DATA_SIZE + k := by
                  simp only [BLOCK_DATA_SIZE_eq] at hkc hdlt ⊢
                  omega
                have hblock : blockOffsetOnDisc part (o + k) = blockOffsetOnDisc part o := by
                  unfold blockOffsetOnDisc
                  rw [hdiv]
                have hlast : cache1.last = blockOffsetOnDisc part o :=
                  fetchCluster_last c reader aes part o cache cache1 hf
                have hf2 : fetchCluster c reader aes part (o + k) cache1 = some cache1 := by
                  simp only [fetchCluster]
                  rw [hblock, if_pos hlast]
                have hnk0 : n - k ≠ 0 := by omega
                have hcopy2 : min (n - k) (BLOCK_DATA_SIZE - (o + k) % BLOCK_DATA_SIZE)
                    = min n (BLOCK_DATA_SIZE - o % BLOCK_DATA_SIZE) - k := by
                  rw [hmod2]
                  simp only [BLOCK_DATA_SIZE_eq] at hkc hdlt ⊢
                  omega
                have hsum2 : (o + k) + (min n (BLOCK_DATA_SIZE - o % BLOCK_DATA_SIZE) - k)
                    = o + min n (BLOCK_DATA_SIZE - o % BLOCK_DATA_SIZE) := by
                  simp only [BLOCK_DATA_SIZE_eq] at hkc ⊢
                  omega
                have hlen2 : (n - k) - (min n (BLOCK_DATA_SIZE - o % BLOCK_DATA_SIZE) - k)
                    = n - min n (BLOCK_DATA_SIZE - o % BLOCK_DATA_SIZE) := by
                  simp only [BLOCK_DATA_SIZE_eq] at hkc ⊢
                  omega
                have hr2 : readLoop c reader aes part ((o + k) % U64MOD) (n - k) cache1
                    = ((readLoop c reader aes part
                          ((o + min n (BLOCK_DATA_SIZE - o % BLOCK_DATA_SIZE)) % U64MOD)
                          (n - min n (BLOCK_DATA_SIZE - o % BLOCK_DATA_SIZE)) cache1).1,
                        (readLoop c reader aes part
                          ((o + min n (BLOCK_DATA_SIZE - o % BLOCK_DATA_SIZE)) % U64MOD)
                          (n - min n (BLOCK_DATA_SIZE - o % BLOCK_DATA_SIZE)) cache1).2.1,
                        ((cache1.data.drop (o % BLOCK_DATA_SIZE + k)).take
                            (min n (BLOCK_DATA_SIZE - o % BLOCK_DATA_SIZE) - k))
                          ++ (readLoop c reader aes part
                            ((o + min n (BLOCK_DATA_SIZE - o % BLOCK_DATA_SIZE)) % U64MOD)
                            (n - min n (BLOCK_DATA_SIZE - o % BLOCK_DATA_SIZE)) cache1).2.2) := by
                  rw [hok, readLoop_fetch_some c reader aes part (o + k) (n - k) cache1 cache1
                    hnk0 hf2, hcopy2, hmod2, hsum2]
                  rw [hlen2]
                have hslice : (cache1.data.drop (o % BLOCK_DATA_SIZE)).take
                      (min n (BLOCK_DATA_SIZE - o % BLOCK_DATA_SIZE))
                    = (cache1.data.drop (o % BLOCK_DATA_SIZE)).take k
                      ++ (cache1.data.drop (o % BLOCK_DATA_SIZE + k)).take
                          (min n (BLOCK_DATA_SIZE - o % BLOCK_DATA_SIZE) - k) := by
                  have hks : min n (BLOCK_DATA_SIZE - o % BLOCK_DATA_SIZE)
                      = k + (min n (BLOCK_DATA_SIZE - o % BLOCK_DATA_SIZE) - k) := by
                    simp only [BLOCK_DATA_SIZE_eq] at hkc ⊢
                    omega
                  conv_lhs => rw [hks]
                  rw [List.take_add, List.drop_drop]
                refine ⟨by rw [hr1], ?_, ?_, ?_⟩
                · rw [hr1]
                  show (readLoop c reader aes part ((o + k) % U64MOD) (n - k) cache1).1 = true
                  rw [hr2]
                  exact htail
                · rw [hr1]
                  show (readLoop c reader aes part ((o + k) % U64MOD) (n - k) cache1).2.1
                      = (readLoop c reader aes part o n cache).2.1
                  rw [hr2, hbig]
                · rw [hbig, hr1]
                  show (cache1.data.drop (o % BLOCK_DATA_SIZE)).take
                        (min n (BLOCK_DATA_SIZE - o % BLOCK_DATA_SIZE))
                      ++ (readLoop c reader aes part
                          ((o + min n (BLOCK_DATA_SIZE - o % BLOCK_DATA_SIZE)) % U64MOD)
                          (n - min n (BLOCK_DATA_SIZE - o % BLOCK_DATA_SIZE)) cache1).2.2
                    = (cache1.data.drop (o % BLOCK_DATA_SIZE)).take k
                      ++ (readLoop c reader aes part ((o + k) % U64MOD) (n - k) cache1).2.2
                  rw [hr2]
                  show (cache1.data.drop (o % BLOCK_DATA_SIZE)).take
                        (min n (BLOCK_DATA_SIZE - o % BLOCK_DATA_SIZE))
                      ++ (readLoop c reader aes part
                          ((o + min n (BLOCK_DATA_SIZE - o % BLOCK_DATA_SIZE)) % U64MOD)
                          (n - min n (BLOCK_DATA_SIZE - o % BLOCK_DATA_SIZE)) cache1).2.2
                    = (cache1.data.drop (o % BLOCK_DATA_SIZE)).take k
                      ++ (((cache1.data.drop (o % BLOCK_DATA_SIZE + k)).take
                            (min n (BLOCK_DATA_SIZE - o % BLOCK_DATA_SIZE) - k))
                          ++ (readLoop c reader aes part
                            ((o + min n (BLOCK_DATA_SIZE - o % BLOCK_DATA_SIZE)) % U64MOD)
                            (n - min n (BLOCK_DATA_SIZE - o % BLOCK_DATA_SIZE)) cache1).2.2)
                  rw [hslice, List.append_assoc]
              · -- the split point is at or past the first copied chunk
                have hcople : min n (BLOCK_DATA_SIZE - o % BLOCK_DATA_SIZE) ≤ k := by
                  simp only [BLOCK_DATA_SIZE_eq] at hkc ⊢
                  omega
                have hcop1 : 1 ≤ min n (BLOCK_DATA_SIZE - o % BLOCK_DATA_SIZE) := by
                  simp only [BLOCK_DATA_SIZE_eq] at hdlt ⊢
                  omega
                have hmin1 : min k (BLOCK_DATA_SIZE - o % BLOCK_DATA_SIZE)
                    = min n (BLOCK_DATA_SIZE - o % BLOCK_DATA_SIZE) := by
                  simp only [BLOCK_DATA_SIZE_eq] at hkc hk ⊢
                  omega
                have hr1 := readLoop_fetch_some c reader aes part o k cache cache1 hk0 hf
                rw [hmin1] at hr1
                have hfle : n - min n (BLOCK_DATA_SIZE - o % BLOCK_DATA_SIZE) ≤ fuel := by
                  omega
                have hk2 : k - min n (BLOCK_DATA_SIZE - o % BLOCK_DATA_SIZE)
                    ≤ n - min n (BLOCK_DATA_SIZE - o % BLOCK_DATA_SIZE) := by
                  omega
                have hno2 : (o + min n (BLOCK_DATA_SIZE - o % BLOCK_DATA_SIZE)) % U64MOD
                    + (n - min n (BLOCK_DATA_SIZE - o % BLOCK_DATA_SIZE)) ≤ U64MOD := by
                  simp only [U64MOD_eq, BLOCK_DATA_SIZE_eq] at hno ⊢
                  omega
                obtain ⟨ih1, ih2, ih3, ih4⟩ :=
                  ih (n - min n (BLOCK_DATA_SIZE - o % BLOCK_DATA_SIZE)) hfle
                    (k - min n (BLOCK_DATA_SIZE - o % BLOCK_DATA_SIZE))
                    ((o + min n (BLOCK_DATA_SIZE - o % BLOCK_DATA_SIZE)) % U64MOD)
                    cache1 hk2 hno2 htail
                have hoff3 : ((o + min n (BLOCK_DATA_SIZE - o % BLOCK_DATA_SIZE)) % U64MOD
                      + (k - min n (BLOCK_DATA_SIZE - o % BLOCK_DATA_SIZE))) % U64MOD
                    = (o + k) % U64MOD := by
                  simp only [U64MOD_eq, BLOCK_DATA_SIZE_eq] at hkc hno ⊢
                  omega
                have hlen3 : (n - min n (BLOCK_DATA_SIZE - o % BLOCK_DATA_SIZE))
                      - (k - min n (BLOCK_DATA_SIZE - o % BLOCK_DATA_SIZE))
                    = n - k := by
                  simp only [BLOCK_DATA_SIZE_eq] at hkc ⊢
                  omega
                rw [hoff3, hlen3] at ih2 ih3 ih4
                refine ⟨?_, ?_, ?_, ?_⟩
                · rw [hr1]
                  exact ih1
                · rw [hr1]
                  exact ih2
                · rw [hr1, hbig]
                  exact ih3
                · rw [hbig, hr1]
                  show (cache1.data.drop (o % BLOCK_DATA_SIZE)).take
                        (min n (BLOCK_DATA_SIZE - o % BLOCK_DATA_SIZE))
                      ++ (readLoop c reader aes part
                          ((o + min n (BLOCK_DATA_SIZE - o % BLOCK_DATA_SIZE)) % U64MOD)
                          (n - min n (BLOCK_DATA_SIZE - o % BLOCK_DATA_SIZE)) cache1).2.2
                    = ((cache1.data.drop (o % BLOCK_DATA_SIZE)).take
                          (min n (BLOCK_DATA_SIZE - o % BLOCK_DATA_SIZE))
                        ++ (readLoop c reader aes part
                            ((o + min n (BLOCK_DATA_SIZE - o % BLOCK_DATA_SIZE)) % U64MOD)
                            (k - min n (BLOCK_DATA_SIZE - o % BLOCK_DATA_SIZE)) cache1).2.2)
                      ++ (readLoop c reader aes part ((o + k) % U64MOD) (n - k)
                          (readLoop c reader aes part
                            ((o + min n (BLOCK_DATA_SIZE - o % BLOCK_DATA_SIZE)) % U64MOD)
                            (k - min n (BLOCK_DATA_SIZE - o % BLOCK_DATA_SIZE)) cache1).2.1).2.2
                  rw [ih4, List.append_assoc]

theorem readLoop_small (c : Crypto) (reader : BlobReader) (aes : List Nat)
    (part : Partition) (o n : Nat) (cacheIn cacheOut : DecCache) (hn0 : n ≠ 0)
    (hf : fetchCluster c reader aes part o cacheIn = some cacheOut)
    (hcopy : min n (BLOCK_DATA_SIZE - o % BLOCK_DATA_SIZE) = n) :
    readLoop c reader aes part o n cacheIn
      = (true, cacheOut, (cacheOut.data.drop (o % BLOCK_DATA_SIZE)).take n) := by
  rw [readLoop_fetch_some c reader aes part o n cacheIn cacheOut hn0 hf, hcopy, Nat.sub_self,
    readLoop_zero]
  simp

theorem fetchCluster_miss (c : Crypto) (reader : BlobReader) (aes : List Nat)
    (part : Partition) (o : Nat) (cache : DecCache) (buf : List Nat)
    (hne : cache.last ≠ blockOffsetOnDisc part o)
    (hr : reader.read (blockOffsetOnDisc part o) BLOCK_TOTAL_SIZE = some buf) :
    fetchCluster c reader aes part o cache
      = some ⟨blockOffsetOnDisc part o,
          c.aesCbcDecrypt aes ((buf.drop 0x3D0).take 16)
            ((buf.drop BLOCK_HEADER_SIZE).take BLOCK_DATA_SIZE)⟩ := by
  simp only [fetchCluster]
  rw [if_neg hne, hr]

/-- Claim C5 (amended): for a partition of the map, provided the request
does not wrap around the 64-bit offset space (`o + n ≤ 2^64`), a
successful `Read(p, o, n)` yields exactly the bytes of `Read(p, o, k)`
followed by `Read(p, (o + k) mod 2^64, n - k)` for every `0 ≤ k ≤ n`,
whatever the cache state when the sequence starts, and both sub-reads
succeed. -/
theorem claimC5_read_split (c : Crypto) (v : VolumeWii) (reader : BlobReader)
    (part : Partition) (aes : List Nat) (o n k : Nat) (cache : DecCache)
    (hne : part ≠ PARTITION_NONE)
    (hlk : lookupKV v.partitionKeys part = some aes)
    (hk : k ≤ n) (hno : o + n ≤ U64MOD)
    (hs : (VolumeWii.Read c v reader o n part cache).1 = true) :
    (VolumeWii.Read c v reader o k part cache).1 = true ∧
    (VolumeWii.Read c v reader ((o + k) % U64MOD) (n - k) part
        (VolumeWii.Read c v reader o k part cache).2.1).1 = true ∧
    (VolumeWii.Read c v reader o n part cache).2.2
      = (VolumeWii.Read c v reader o k part cache).2.2
        ++ (VolumeWii.Read c v reader ((o + k) % U64MOD) (n - k) part
            (VolumeWii.Read c v reader o k part cache).2.1).2.2 := by
  have hRead : ∀ o2 n2 cache2, VolumeWii.Read c v reader o2 n2 part cache2
      = readLoop c reader aes part o2 n2 cache2 := by
    intro o2 n2 cache2
    unfold VolumeWii.Read
    rw [if_neg hne, hlk]
  rw [hRead] at hs
  obtain ⟨h1, h2, h3, h4⟩ := readLoop_split c reader aes part n n le_rfl k o cache hk hno hs
  simp only [hRead]
  exact ⟨h1, h2, h4⟩

theorem claimC5_read_split_witness :
    ((⟨0⟩ : Partition) ≠ PARTITION_NONE) ∧
    lookupKV volWit.partitionKeys ⟨0⟩ = some (List.replicate 16 0) ∧
    (1 : Nat) ≤ 2 ∧ (0 : Nat) + 2 ≤ U64MOD ∧
    (VolumeWii.Read cWit volWit readerWit 0 2 ⟨0⟩ ⟨U64MAX, []⟩).1 = true ∧
    (VolumeWii.Read cWit volWit readerWit 0 1 ⟨0⟩ ⟨U64MAX, []⟩).1 = true ∧
    (VolumeWii.Read cWit volWit readerWit 0 2 ⟨0⟩ ⟨U64MAX, []⟩).2.2
      = (VolumeWii.Read cWit volWit readerWit 0 1 ⟨0⟩ ⟨U64MAX, []⟩).2.2
        ++ (VolumeWii.Read cWit volWit readerWit ((0 + 1) % U64MOD) (2 - 1) ⟨0⟩
            (VolumeWii.Read cWit volWit readerWit 0 1 ⟨0⟩ ⟨U64MAX, []⟩).2.1).2.2 := by
  have hrd : readerWit.read (blockOffsetOnDisc ⟨0⟩ 0) BLOCK_TOTAL_SIZE
      = some (List.replicate BLOCK_TOTAL_SIZE 3) := rfl
  have hdec : cWit.aesCbcDecrypt (List.replicate 16 0)
        (((List.replicate BLOCK_TOTAL_SIZE 3).drop 0x3D0).take 16)
        (((List.replicate BLOCK_TOTAL_SIZE 3).drop BLOCK_HEADER_SIZE).take BLOCK_DATA_SIZE)
      = List.replicate BLOCK_DATA_SIZE 3 := by
    show ((List.replicate BLOCK_TOTAL_SIZE 3).drop BLOCK_HEADER_SIZE).take BLOCK_DATA_SIZE = _
    rw [List.drop_replicate, List.take_replicate]
    norm_num [BLOCK_TOTAL_SIZE, BLOCK_HEADER_SIZE, BLOCK_DATA_SIZE]
  have hf : fetchCluster cWit readerWit (List.replicate 16 0) ⟨0⟩ 0 ⟨U64MAX, []⟩
      = some ⟨blockOffsetOnDisc ⟨0⟩ 0, List.replicate BLOCK_DATA_SIZE 3⟩ := by
    rw [fetchCluster_miss cWit readerWit (List.replicate 16 0) ⟨0⟩ 0 ⟨U64MAX, []⟩
      (List.replicate BLOCK_TOTAL_SIZE 3) (by decide) hrd, hdec]
  have hsl : readLoop cWit readerWit (List.replicate 16 0) ⟨0⟩ 0 2 ⟨U64MAX, []⟩
      = (true, ⟨blockOffsetOnDisc ⟨0⟩ 0, List.replicate BLOCK_DATA_SIZE 3⟩,
          ((List.replicate BLOCK_DATA_SIZE 3).drop (0 % BLOCK_DATA_SIZE)).take 2) :=
    readLoop_small cWit readerWit (List.replicate 16 0) ⟨0⟩ 0 2 ⟨U64MAX, []⟩
      ⟨blockOffsetOnDisc ⟨0⟩ 0, List.replicate BLOCK_DATA_SIZE 3⟩ (by decide) hf (by decide)
  have hRead : ∀ o2 n2 cache2, VolumeWii.Read cWit volWit readerWit o2 n2 ⟨0⟩ cache2
      = readLoop cWit readerWit (List.replicate 16 0) ⟨0⟩ o2 n2 cache2 := by
    intro o2 n2 cache2
    unfold VolumeWii.Read
    rw [if_neg (by decide)]
    rfl
  have hs : (VolumeWii.Read cWit volWit readerWit 0 2 ⟨0⟩ ⟨U64MAX, []⟩).1 = true := by
    rw [hRead, hsl]
  obtain ⟨h1, h2, h3⟩ := claimC5_read_split cWit volWit readerWit ⟨0⟩
    (List.replicate 16 0) 0 2 1 ⟨U64MAX, []⟩ (by decide) (by decide) (by decide)
    (by decide) hs
  exact ⟨by decide, by decide, by decide, by decide, hs, h1, h3⟩

/-- A blob reader for the wraparound counterexample: every read succeeds;
the cluster at the raw offset of the cluster containing partition-local
offset `2^64 - 5` of the offset-0 partition holds the byte 1, everything
else the byte 2. -/
def exReaderC5 : BlobReader :=
  ⟨fun off len =>
    some (List.replicate len
      (if off = blockOffsetOnDisc ⟨0⟩ (U64MOD - 5) then 1 else 2))⟩

/-- Claim C5 fails as stated: without the no-overflow restriction, a read
of 10 bytes at u64 offset `2^64 - 5` is served entirely from one cluster
(the loop's u64 offset only wraps after the copy), while the split
read(p, 2^64 - 5, 5) followed by read(p, (2^64 - 5) + 5, 5) has its
second half start at wrapped offset 0, a different cluster, so the
concatenated bytes differ. -/
theorem claimC5_counterexample :
    ((⟨0⟩ : Partition) ≠ PARTITION_NONE) ∧
    lookupKV volWit.partitionKeys ⟨0⟩ = some (List.replicate 16 0) ∧
    (VolumeWii.Read cWit volWit exReaderC5 (U64MOD - 5) 10 ⟨0⟩ ⟨U64MAX, []⟩).1 = true ∧
    (VolumeWii.Read cWit volWit exReaderC5 (U64MOD - 5) 10 ⟨0⟩ ⟨U64MAX, []⟩).2.2
      ≠ (VolumeWii.Read cWit volWit exReaderC5 (U64MOD - 5) 5 ⟨0⟩ ⟨U64MAX, []⟩).2.2
        ++ (VolumeWii.Read cWit volWit exReaderC5 ((U64MOD - 5 + 5) % U64MOD) (10 - 5) ⟨0⟩
            (VolumeWii.Read cWit volWit exReaderC5 (U64MOD - 5) 5 ⟨0⟩
              ⟨U64MAX, []⟩).2.1).2.2 := by
  have hrd1 : exReaderC5.read (blockOffsetOnDisc ⟨0⟩ (U64MOD - 5)) BLOCK_TOTAL_SIZE
      = some (List.replicate BLOCK_TOTAL_SIZE 1) := by
    simp [exReaderC5]
  have hdec1 : cWit.aesCbcDecrypt (List.replicate 16 0)
        (((List.replicate BLOCK_TOTAL_SIZE 1).drop 0x3D0).take 16)
        (((List.replicate BLOCK_TOTAL_SIZE 1).drop BLOCK_HEADER_SIZE).take BLOCK_DATA_SIZE)
      = List.replicate BLOCK_DATA_SIZE 1 := by
    show ((List.replicate BLOCK_TOTAL_SIZE 1).drop BLOCK_HEADER_SIZE).take BLOCK_DATA_SIZE = _
    rw [List.drop_replicate, List.take_replicate]
    norm_num [BLOCK_TOTAL_SIZE, BLOCK_HEADER_SIZE, BLOCK_DATA_SIZE]
  have hf1 : fetchCluster cWit exReaderC5 (List.replicate 16 0) ⟨0⟩ (U64MOD - 5) ⟨U64MAX, []⟩
      = some ⟨blockOffsetOnDisc ⟨0⟩ (U64MOD - 5), List.replicate BLOCK_DATA_SIZE 1⟩ := by
    rw [fetchCluster_miss cWit exReaderC5 (List.replicate 16 0) ⟨0⟩ (U64MOD - 5) ⟨U64MAX, []⟩
      (List.replicate BLOCK_TOTAL_SIZE 1) (by decide) hrd1, hdec1]
  have hsliceA : ((List.replicate BLOCK_DATA_SIZE 1).drop
        ((U64MOD - 5) % BLOCK_DATA_SIZE)).take 10 = List.replicate 10 1 := by
    rw [List.drop_replicate, List.take_replicate]
    decide
  have hsliceB : ((List.replicate BLOCK_DATA_SIZE 1).drop
        ((U64MOD - 5) % BLOCK_DATA_SIZE)).take 5 = List.replicate 5 1 := by
    rw [List.drop_replicate, List.take_replicate]
    decide
  have hbig : readLoop cWit exReaderC5 (List.replicate 16 0) ⟨0⟩ (U64MOD - 5) 10 ⟨U64MAX, []⟩
      = (true, ⟨blockOffsetOnDisc ⟨0⟩ (U64MOD - 5), List.replicate BLOCK_DATA_SIZE 1⟩,
          List.replicate 10 1) := by
    rw [readLoop_small cWit exReaderC5 (List.replicate 16 0) ⟨0⟩ (U64MOD - 5) 10 ⟨U64MAX, []⟩
      ⟨blockOffsetOnDisc ⟨0⟩ (U64MOD - 5), List.replicate BLOCK_DATA_SIZE 1⟩ (by decide) hf1
      (by decide), hsliceA]
  have hr1 : readLoop cWit exReaderC5 (List.replicate 16 0) ⟨0⟩ (U64MOD - 5) 5 ⟨U64MAX, []⟩
      = (true, ⟨blockOffsetOnDisc ⟨0⟩ (U64MOD - 5), List.replicate BLOCK_DATA_SIZE 1⟩,
          List.replicate 5 1) := by
    rw [readLoop_small cWit exReaderC5 (List.replicate 16 0) ⟨0⟩ (U64MOD - 5) 5 ⟨U64MAX, []⟩
      ⟨blockOffsetOnDisc ⟨0⟩ (U64MOD - 5), List.replicate BLOCK_DATA_SIZE 1⟩ (by decide) hf1
      (by decide), hsliceB]
  have hrd2 : exReaderC5.read (blockOffsetOnDisc ⟨0⟩ 0) BLOCK_TOTAL_SIZE
      = some (List.replicate BLOCK_TOTAL_SIZE 2) := by
    simp only [exReaderC5]
    rw [if_neg (by decide)]
  have hdec2 : cWit.aesCbcDecrypt (List.replicate 16 0)
        (((List.replicate BLOCK_TOTAL_SIZE 2).drop 0x3D0).take 16)
        (((List.replicate BLOCK_TOTAL_SIZE 2).drop BLOCK_HEADER_SIZE).take BLOCK_DATA_SIZE)
      = List.replicate BLOCK_DATA_SIZE 2 := by
    show ((List.replicate BLOCK_TOTAL_SIZE 2).drop BLOCK_HEADER_SIZE).take BLOCK_DATA_SIZE = _
    rw [List.drop_replicate, List.take_replicate]
    norm_num [BLOCK_TOTAL_SIZE, BLOCK_HEADER_SIZE, BLOCK_DATA_SIZE]
  have hf2 : fetchCluster cWit exReaderC5 (List.replicate 16 0) ⟨0⟩ 0
        ⟨blockOffsetOnDisc ⟨0⟩ (U64MOD - 5), List.replicate BLOCK_DATA_SIZE 1⟩
      = some ⟨blockOffsetOnDisc ⟨0⟩ 0, List.replicate BLOCK_DATA_SIZE 2⟩ := by
    rw [fetchCluster_miss cWit exReaderC5 (List.replicate 16 0) ⟨0⟩ 0
      ⟨blockOffsetOnDisc ⟨0⟩ (U64MOD - 5), List.replicate BLOCK_DATA_SIZE 1⟩
      (List.replicate BLOCK_TOTAL_SIZE 2) (by decide) hrd2, hdec2]
  have hsliceC : ((List.replicate BLOCK_DATA_SIZE 2).drop (0 % BLOCK_DATA_SIZE)).take 5
      = List.replicate 5 2 := by
    rw [List.drop_replicate, List.take_replicate]
    decide
  have hr2 : readLoop cWit exReaderC5 (List.replicate 16 0) ⟨0⟩ 0 5
        ⟨blockOffsetOnDisc ⟨0⟩ (U64MOD - 5), List.replicate BLOCK_DATA_SIZE 1⟩
      = (true, ⟨blockOffsetOnDisc ⟨0⟩ 0, List.replicate BLOCK_DATA_SIZE 2⟩,
          List.replicate 5 2) := by
    rw [readLoop_small cWit exReaderC5 (List.replicate 16 0) ⟨0⟩ 0 5
      ⟨blockOffsetOnDisc ⟨0⟩ (U64MOD - 5), List.replicate BLOCK_DATA_SIZE 1⟩
      ⟨blockOffsetOnDisc ⟨0⟩ 0, List.replicate BLOCK_DATA_SIZE 2⟩ (by decide) hf2
      (by decide), hsliceC]
  have ho2 : (U64MOD - 5 + 5) % U64MOD = 0 := by decide
  have hRead : ∀ o2 n2 cache2, VolumeWii.Read cWit volWit exReaderC5 o2 n2 ⟨0⟩ cache2
      = readLoop cWit exReaderC5 (List.replicate 16 0) ⟨0⟩ o2 n2 cache2 := by
    intro o2 n2 cache2
    unfold VolumeWii.Read
    rw [if_neg (by decide)]
    rfl
  refine ⟨by decide, by decide, ?_, ?_⟩
  · rw [hRead, hbig]
  · simp only [hRead, hbig, hr1, ho2]
    rw [hr2]
    decide

